import Mathlib

/-!
Shallow embedding of the CRX image decoder from `src/crx.rs` (crate `crx-convert`).

Bytes are modelled as `Nat` (wrapping byte arithmetic is written `% 256`
explicitly, and the `usize` wrapping subtraction of release-mode Rust is
written `% 2 ^ 64` explicitly).  Byte streams are `List Nat`, consumed by
state-passing readers.  Fallible code returns a three-way result `DRes`:
`ok` mirrors Rust `Ok`, `err` mirrors the categorized `Err(CrxDecodeError ...)`
and short-read / deflate I/O errors, and `panic` mirrors a Rust abort
(out-of-bounds slice or `Vec` index).  The zlib inflater used by `unpack_2`
is the external `flate2` crate; the top-level reader `crxRead` is therefore
parameterized by an `inflate` function, and the claims about the post-inflate
processing are stated on `unpack_2`, which consumes the inflated stream.
-/

namespace CrxSpec

/-- The error taxonomy of `CrxDecodeError` in `src/crx.rs`, together with the
two I/O-level failures (`shortRead` for an exhausted byte source, and
`malformedDeflate` for a failing zlib stream). -/
inductive DErr where
  | crxSignatureInvalid
  | versionNotSupported (v : Nat)
  | invalidRowDecodeMode (m : Nat)
  | noPreviousRow
  | rowOverflow
  | badPaletteIndex (size idx : Nat)
  | shortRead
  | malformedDeflate
deriving DecidableEq

/-- Result of a decoding step: `ok` and `err` mirror Rust `Ok`/`Err`, while
`panic` marks an abort of the process (out-of-bounds indexing). -/
inductive DRes (α : Type) where
  | ok (a : α)
  | err (e : DErr)
  | panic
deriving DecidableEq

def DRes.bind {α β : Type} : DRes α → (α → DRes β) → DRes β
  | .ok a, f => f a
  | .err e, _ => .err e
  | .panic, _ => .panic

instance : Monad DRes where
  pure := DRes.ok
  bind := DRes.bind

@[simp] theorem DRes.bind_ok {α β : Type} (a : α) (f : α → DRes β) :
    DRes.bind (.ok a) f = f a := rfl

@[simp] theorem DRes.bind_err {α β : Type} (e : DErr) (f : α → DRes β) :
    DRes.bind (.err e) f = .err e := rfl

@[simp] theorem DRes.bind_panic {α β : Type} (f : α → DRes β) :
    DRes.bind .panic f = .panic := rfl

@[simp] theorem DRes.monad_bind_eq {α β : Type} (m : DRes α) (f : α → DRes β) :
    (m >>= f) = DRes.bind m f := rfl

@[simp] theorem DRes.pure_eq {α : Type} (a : α) : (pure a : DRes α) = .ok a := rfl

/-- Read a single byte (`read_u8`); an empty source gives the I/O error. -/
def readU8 : List Nat → DRes (Nat × List Nat)
  | [] => .err .shortRead
  | b :: s => .ok (b, s)

/-- Read exactly `n` bytes (`read_exact` into a fresh buffer). -/
def readExact (n : Nat) (s : List Nat) : DRes (List Nat × List Nat) :=
  if n ≤ s.length then .ok (s.take n, s.drop n) else .err .shortRead

/-- Little-endian `u16` (`read_u16::<LittleEndian>`). -/
def readU16 (s : List Nat) : DRes (Nat × List Nat) := do
  let (lo, s) ← readU8 s
  let (hi, s) ← readU8 s
  .ok (lo + 256 * hi, s)

/-- Reinterpret a 16-bit unsigned value as the signed `i16` it encodes. -/
def asI16 (v : Nat) : Int :=
  if v < 0x8000 then (v : Int) else (v : Int) - 0x10000

/-- Little-endian `i16` (`read_i16::<LittleEndian>`). -/
def readI16 (s : List Nat) : DRes (Int × List Nat) := do
  let (v, s) ← readU16 s
  .ok (asI16 v, s)

/-- Reinterpret a 32-bit unsigned value as the signed `i32` it encodes. -/
def asI32 (v : Nat) : Int :=
  if v < 0x80000000 then (v : Int) else (v : Int) - 0x100000000

/-- Little-endian `i32` (`read_i32::<LittleEndian>`). -/
def readI32 (s : List Nat) : DRes (Int × List Nat) := do
  let (b0, s) ← readU8 s
  let (b1, s) ← readU8 s
  let (b2, s) ← readU8 s
  let (b3, s) ← readU8 s
  .ok (asI32 (b0 + 256 * b1 + 65536 * b2 + 16777216 * b3), s)

/-- `usize::checked_sub`. -/
def checkedSub (a b : Nat) : Option Nat :=
  if b ≤ a then some (a - b) else none

/-- Release-mode Rust wrapping subtraction on `usize` (64-bit two's
complement); both arguments are below `2 ^ 64` at every use site. -/
def wsub (a b : Nat) : Nat := (a + (2 ^ 64 - b)) % 2 ^ 64

/-- The `i32 as usize` cast (two's-complement reinterpretation). -/
def usizeOfI32 (z : Int) : Nat := (z % (2 : Int) ^ 64).toNat

/-- The parsed fixed header (`CrxHeader`). -/
structure CrxHeader where
  inner_x : Int
  inner_y : Int
  width : Nat
  height : Nat
  version : Nat
  flag : Nat
  depth : Int
  mode : Nat
deriving DecidableEq

/-- The decompression context (`CrxDataContext`); a palette entry is an
`(r, g, b)` triple. -/
structure CrxDataContext where
  width : Nat
  height : Nat
  bpp : Nat
  palette : List (Nat × Nat × Nat)
deriving DecidableEq

/-- A clip record (`CrxImageClip`). -/
structure CrxImageClip where
  field_1 : Int
  field_2 : Int
  field_3 : Int
  field_4 : Int
  field_5 : Int
  field_6 : Int
deriving DecidableEq

/-- The decoded result record (`CrxFile`). -/
structure CrxFile where
  inner_x : Int
  inner_y : Int
  width : Nat
  height : Nat
  bpp : Nat
  clips : List CrxImageClip
  raw_image_buffer : List Nat
deriving DecidableEq

/-- `CrxHeader::read`: eight little-endian 16-bit fields, read in order, then
the version guard `(1..=3).contains(&version)`. -/
def crxHeaderRead (s : List Nat) : DRes (CrxHeader × List Nat) := do
  let (inner_x, s) ← readI16 s
  let (inner_y, s) ← readI16 s
  let (width, s) ← readU16 s
  let (height, s) ← readU16 s
  let (version, s) ← readU16 s
  let (flag, s) ← readU16 s
  let (depth, s) ← readI16 s
  let (mode, s) ← readU16 s
  if 1 ≤ version ∧ version ≤ 3 then
    .ok ({ inner_x, inner_y, width, height, version, flag, depth, mode }, s)
  else
    .err (.versionNotSupported version)

/-- The entry-reading loop of `CrxFile::read_palette`: each entry is `(r,g,b)`
plus a discarded fourth byte when `color_size == 4`, with the magenta entry
`(0xFF, 0x00, 0xFF)` having its `g` forced to `0xFF`. -/
def palReadLoop (cs : Nat) : Nat → List Nat → List (Nat × Nat × Nat) →
    DRes (List (Nat × Nat × Nat) × List Nat)
  | 0, s, acc => .ok (acc, s)
  | n + 1, s, acc => do
    let (r, s) ← readU8 s
    let (g, s) ← readU8 s
    let (b, s) ← readU8 s
    let s ← (if cs = 4 then do
      let (_, s) ← readU8 s
      (.ok s : DRes (List Nat))
    else .ok s)
    let g := if b = 0xFF ∧ g = 0 ∧ r = 0xFF then 0xFF else g
    palReadLoop cs n s (acc ++ [(r, g, b)])

/-- `CrxFile::read_palette`: `color_size` is 4 exactly for `depth == 0x102`,
and `min(depth, 0x100)` entries are read (none when `depth` is negative,
mirroring the empty `0..colors` range). -/
def read_palette (depth : Int) (s : List Nat) :
    DRes (List (Nat × Nat × Nat) × List Nat) :=
  let color_size : Nat := if depth = 0x102 then 4 else 3
  let colors : Int := if depth > 0x100 then 0x100 else depth
  palReadLoop color_size colors.toNat s []

/-- `CrxImageClip::read`: a fixed 16-byte record. -/
def clipRead (s : List Nat) : DRes (CrxImageClip × List Nat) := do
  let (f1, s) ← readI32 s
  let (f2, s) ← readI16 s
  let (f3, s) ← readI16 s
  let (f4, s) ← readI32 s
  let (f5, s) ← readI16 s
  let (f6, s) ← readI16 s
  .ok ({ field_1 := f1, field_2 := f2, field_3 := f3,
         field_4 := f4, field_5 := f5, field_6 := f6 }, s)

/-- The record loop of `CrxFile::read_clip` (the `Vec::with_capacity` call is
a pure allocation and is not modelled; a negative count iterates zero times,
mirroring the empty `0..clip_count` range). -/
def clipLoop : Nat → List Nat → List CrxImageClip →
    DRes (List CrxImageClip × List Nat)
  | 0, s, acc => .ok (acc, s)
  | n + 1, s, acc => do
    let (c, s) ← clipRead s
    clipLoop n s (acc ++ [c])

/-- `CrxFile::read_clip`: an `i32` count followed by that many records. -/
def read_clip (s : List Nat) : DRes (List CrxImageClip × List Nat) := do
  let (n, s) ← readI32 s
  clipLoop n.toNat s []

/-- The back-reference copy loop of `unpack_1`: copy up to `count` bytes from
the sliding window at a masked source cursor, writing each byte to the window
and to the output; the loop breaks as soon as the output is full.  Returns
the updated `(window, win_pos, output, dst)`. -/
def unpack1Copy : Nat → List Nat → Nat → Nat → List Nat → Nat →
    List Nat × Nat × List Nat × Nat
  | 0, win, wp, _, out, dst => (win, wp, out, dst)
  | k + 1, win, wp, off, out, dst =>
    if out.length ≤ dst then (win, wp, out, dst)
    else
      let off := off % 0x10000
      let dat := win.getD off 0
      let win := win.set wp dat
      let wp := (wp + 1) % 0x10000
      let out := out.set dst dat
      unpack1Copy k win wp (off + 1) out (dst + 1)

/-- The flag-register reload of `unpack_1` (the caller has already shifted
the register right by one): when the sentinel bit has fallen out, read a
fresh control byte `b` and set the register to `b | 0xFF00`. -/
def unpack1Reload (s : List Nat) (flag : Nat) : DRes (Nat × List Nat) :=
  if flag &&& 0x100 = 0 then do
    let (b, s) ← readU8 s
    .ok (b ||| 0xFF00, s)
  else .ok (flag, s)

/-- The `(count, back-distance)` decoding of `unpack_1`'s non-literal
branch, one case per control-byte range. -/
def unpack1Ctrl (s : List Nat) : DRes (Nat × Nat × List Nat) := do
  let (control, s) ← readU8 s
  if 0xC0 ≤ control then do
    let (e, s) ← readU8 s
    .ok (4 + ((control >>> 2) &&& 0xF), ((control &&& 3) <<< 8) ||| e, s)
  else if control &&& 0x80 ≠ 0 then
    let offset := control &&& 0x1F
    let count := 2 + ((control >>> 5) &&& 3)
    if offset = 0 then do
      let (o, s) ← readU8 s
      .ok (count, o, s)
    else .ok (count, offset, s)
  else if control = 0x7F then do
    let (c, s) ← readU16 s
    let (o, s) ← readU16 s
    .ok (2 + c, o, s)
  else do
    let (o, s) ← readU16 s
    .ok (control + 4, o, s)

/-- One step of the `while dst < output.len()` loop of `unpack_1`, with a
fuel counter: each iteration strictly increases `dst`, so the fuel chosen by
`unpack_1` (`output.len() + 1`) can never run out; the unreachable fuel-out
case is marked `panic`. -/
def unpack1Loop : Nat → List Nat → Nat → List Nat → Nat → List Nat → Nat →
    DRes (List Nat)
  | 0, _, _, _, _, _, _ => .panic
  | fuel + 1, s, flag, win, wp, out, dst =>
    if dst < out.length then do
      let (flag, s) ← unpack1Reload s (flag >>> 1)
      if flag &&& 1 ≠ 0 then do
        let (dat, s) ← readU8 s
        let win := win.set wp dat
        let wp := (wp + 1) % 0x10000
        let out := out.set dst dat
        unpack1Loop fuel s flag win wp out (dst + 1)
      else do
        let (count, offset, s) ← unpack1Ctrl s
        let offset := wsub wp offset
        let (win, wp, out, dst) := unpack1Copy count win wp offset out dst
        unpack1Loop fuel s flag win wp out dst
    else .ok out

/-- `CrxFile::unpack_1`: the version-1 LZ decompressor over a 64 KiB sliding
window, producing `(bpp / 8) * width * height` bytes. -/
def unpack_1 (buf : List Nat) (context : CrxDataContext) : DRes (List Nat) :=
  let out : List Nat :=
    List.replicate (context.bpp / 8 * context.width * context.height) 0
  unpack1Loop (out.length + 1) buf 0 (List.replicate 0x10000 0) 0 out 0

/-- Checked read `buf[i]` of a Rust `Vec` index expression: out of bounds
aborts the process. -/
def getB (l : List Nat) (i : Nat) : DRes Nat :=
  match l[i]? with
  | some v => .ok v
  | none => .panic

/-- Checked write `buf[i] = v` of a Rust `Vec` index expression: out of
bounds aborts the process. -/
def setB (l : List Nat) (i : Nat) (v : Nat) : DRes (List Nat) :=
  if i < l.length then .ok (l.set i v) else .panic

/-- Write a byte string into the buffer at consecutive positions (the effect
of `read_exact` into a slice `&mut out[off..off+len]`); callers check bounds
first, so the plain `List.set` is total here. -/
def writeSeq (out : List Nat) (off : Nat) : List Nat → List Nat
  | [] => out
  | b :: bs => writeSeq (out.set off b) (off + 1) bs

/-- `reader.read_exact(&mut out[off..off+len])`: slicing panics when the
range exceeds the buffer, otherwise exactly `len` bytes are consumed and
stored. -/
def readInto (s : List Nat) (out : List Nat) (off len : Nat) :
    DRes (List Nat × List Nat) :=
  if off + len ≤ out.length then do
    let (bytes, s) ← readExact len s
    .ok (writeSeq out off bytes, s)
  else .panic

/-- Mode-0 tail loop of `unpack_2`: `out[ro+xb] = u8 +₂₅₆ out[ro+xb-ps]` for
`n` successive byte positions starting at `xb`. -/
def mode0Loop (ps ro : Nat) : Nat → Nat → List Nat → List Nat →
    DRes (List Nat × List Nat)
  | _, 0, s, out => .ok (out, s)
  | xb, n + 1, s, out => do
    let (v, s) ← readU8 s
    let prev ← getB out (ro + xb - ps)
    let out ← setB out (ro + xb) ((v + prev) % 256)
    mode0Loop ps ro (xb + 1) n s out

/-- Mode-1 loop of `unpack_2`: `out[ro+xb] = u8 +₂₅₆ out[po+xb]`. -/
def mode1Loop (po ro : Nat) : Nat → Nat → List Nat → List Nat →
    DRes (List Nat × List Nat)
  | _, 0, s, out => .ok (out, s)
  | xb, n + 1, s, out => do
    let (v, s) ← readU8 s
    let prev ← getB out (po + xb)
    let out ← setB out (ro + xb) ((v + prev) % 256)
    mode1Loop po ro (xb + 1) n s out

/-- Mode-2 tail loop of `unpack_2`: `out[ro+xb] = u8 +₂₅₆ out[po+xb-ps]`. -/
def mode2Loop (ps po ro : Nat) : Nat → Nat → List Nat → List Nat →
    DRes (List Nat × List Nat)
  | _, 0, s, out => .ok (out, s)
  | xb, n + 1, s, out => do
    let (v, s) ← readU8 s
    let prev ← getB out (po + xb - ps)
    let out ← setB out (ro + xb) ((v + prev) % 256)
    mode2Loop ps po ro (xb + 1) n s out

/-- Mode-3 head loop of `unpack_2`: `out[ro+xb] = u8 +₂₅₆ out[po+xb+ps]`. -/
def mode3Loop (ps po ro : Nat) : Nat → Nat → List Nat → List Nat →
    DRes (List Nat × List Nat)
  | _, 0, s, out => .ok (out, s)
  | xb, n + 1, s, out => do
    let (v, s) ← readU8 s
    let prev ← getB out (po + xb + ps)
    let out ← setB out (ro + xb) ((v + prev) % 256)
    mode3Loop ps po ro (xb + 1) n s out

/-- The inner `for _ in 0..count` of the mode-4 run branch: write `count`
copies of `v`, stepping by `ps`; the writes are unchecked in the source and
abort on an out-of-bounds index.  Returns the buffer and the advanced `xb`. -/
def rleWrite (ps v : Nat) : Nat → Nat → List Nat → DRes (List Nat × Nat)
  | 0, xb, out => .ok (out, xb)
  | k + 1, xb, out => do
    let out ← setB out xb v
    rleWrite ps v k (xb + ps) out

/-- The mode-4 per-component column loop (`while remaining > 0`), with a fuel
counter: `remaining` strictly decreases on every recursive call, so the fuel
chosen by the caller (`width + 1`) can never run out; the unreachable
fuel-out case is marked `panic`. -/
def mode4Col (ps : Nat) : Nat → Nat → Nat → Nat → List Nat → List Nat →
    DRes (List Nat × List Nat)
  | 0, _, _, _, _, _ => .panic
  | fuel + 1, xb, val, remaining, s, out =>
    match remaining with
    | 0 => .ok (out, s)
    | r + 1 => do
      let out ← setB out xb val
      let xb := xb + ps
      if r = 0 then .ok (out, s)
      else do
        let (next, s) ← readU8 s
        if val = next then do
          let (count, s) ← readU8 s
          let (out, xb) ← rleWrite ps next count xb out
          match checkedSub r count with
          | none => .err .rowOverflow
          | some r' =>
            if 0 < r' then do
              let (val', s) ← readU8 s
              mode4Col ps fuel xb val' r' s out
            else mode4Col ps fuel xb val r' s out
        else mode4Col ps fuel xb next r s out

/-- The `for pix_offset in 0..pixel_size` component loop of mode 4: each
component reads its initial running value and fills its column of `w`
samples. -/
def mode4Comps (ps w ro : Nat) : Nat → Nat → List Nat → List Nat →
    DRes (List Nat × List Nat)
  | _, 0, s, out => .ok (out, s)
  | p, n + 1, s, out => do
    let (val, s) ← readU8 s
    let (out, s) ← mode4Col ps (w + 1) (ro + p) val w s out
    mode4Comps ps w ro (p + 1) n s out

/-- The `for y in 0..height` row loop of the direct (non-palette) case of
`unpack_2`: read a filter-mode byte and apply the selected row filter. -/
def rowsLoop (ps stride w : Nat) : Nat → Nat → List Nat → List Nat →
    DRes (List Nat × List Nat)
  | _, 0, s, out => .ok (out, s)
  | y, n + 1, s, out => do
    let (mode, s) ← readU8 s
    let ro := y * stride
    match mode with
    | 0 => do
      let (out, s) ← readInto s out ro ps
      let (out, s) ← mode0Loop ps ro ps (stride - ps) s out
      rowsLoop ps stride w (y + 1) n s out
    | 1 =>
      match checkedSub ro stride with
      | none => .err .noPreviousRow
      | some po => do
        let (out, s) ← mode1Loop po ro 0 stride s out
        rowsLoop ps stride w (y + 1) n s out
    | 2 =>
      match checkedSub ro stride with
      | none => .err .noPreviousRow
      | some po => do
        let (out, s) ← readInto s out ro ps
        let (out, s) ← mode2Loop ps po ro ps (stride - ps) s out
        rowsLoop ps stride w (y + 1) n s out
    | 3 =>
      match checkedSub ro stride with
      | none => .err .noPreviousRow
      | some po => do
        let (out, s) ← mode3Loop ps po ro 0 (stride - ps) s out
        let (out, s) ← readInto s out (ro + stride - ps) ps
        rowsLoop ps stride w (y + 1) n s out
    | 4 => do
      let (out, s) ← mode4Comps ps w ro 0 ps s out
      rowsLoop ps stride w (y + 1) n s out
    | other => .err (.invalidRowDecodeMode other)

/-- The palette-expansion loop of `unpack_2`: each index byte is looked up in
the palette (`BadPaletteIndex` when it is out of range) and expanded to three
output bytes. -/
def palExpandLoop (pal : List (Nat × Nat × Nat)) (idxs : List Nat) (ps : Nat) :
    Nat → Nat → List Nat → DRes (List Nat)
  | _, 0, out => .ok out
  | pix, n + 1, out => do
    let idx ← getB idxs pix
    match pal[idx]? with
    | none => .err (.badPaletteIndex pal.length idx)
    | some c => do
      let out ← setB out (pix * ps) c.1
      let out ← setB out (pix * ps + 1) c.2.1
      let out ← setB out (pix * ps + 2) c.2.2
      palExpandLoop pal idxs ps (pix + 1) n out

/-- `CrxFile::unpack_2`, taking the already inflated zlib stream: either the
palette-index expansion (8 bpp) or the per-row filter bank. -/
def unpack_2 (context : CrxDataContext) (s : List Nat) : DRes (List Nat) :=
  let pixel_size := context.bpp / 8
  let is_palette := pixel_size = 1
  let pixel_size := if pixel_size = 1 then 3 else pixel_size
  let stride := pixel_size * context.width
  let out : List Nat := List.replicate (stride * context.height) 0
  if is_palette then do
    let (idxs, _) ← readExact (context.width * context.height) s
    palExpandLoop context.palette idxs pixel_size 0
      (context.width * context.height) out
  else do
    let (out, _) ← rowsLoop pixel_size stride context.width 0 context.height s out
    .ok out

/-- The alpha/channel pass of `CrxFile::read` for 32-bpp images with header
`mode != 1`: each 4-byte pixel `[a, b, g, r]` becomes
`[b, g, r, a XOR alpha_flip]`.  The nested `h`/`w` loops of the source visit
exactly the pixel indices `0 .. width*height`, enumerated here by `pix`. -/
def alphaLoop (flip : Nat) : Nat → Nat → List Nat → DRes (List Nat)
  | _, 0, buf => .ok buf
  | pix, n + 1, buf => do
    let a ← getB buf (4 * pix)
    let b ← getB buf (4 * pix + 1)
    let g ← getB buf (4 * pix + 2)
    let r ← getB buf (4 * pix + 3)
    let buf ← setB buf (4 * pix) b
    let buf ← setB buf (4 * pix + 1) g
    let buf ← setB buf (4 * pix + 2) r
    let buf ← setB buf (4 * pix + 3) (a ^^^ flip)
    alphaLoop flip (pix + 1) n buf

/-- The BGR(A) → RGB(A) pass of `CrxFile::read`: swap bytes `pix*ps` and
`pix*ps + 2` of every pixel (`Vec::swap`, which aborts when an index is out
of bounds). -/
def swapLoop (ps : Nat) : Nat → Nat → List Nat → DRes (List Nat)
  | _, 0, buf => .ok buf
  | pix, n + 1, buf => do
    let x ← getB buf (pix * ps)
    let z ← getB buf (pix * ps + 2)
    let buf ← setB buf (pix * ps) z
    let buf ← setB buf (pix * ps + 2) x
    swapLoop ps (pix + 1) n buf

/-- The two final passes of `CrxFile::read` (lines 142-165): the 32-bpp alpha
rotation/inversion when the header mode is not 1, then the component swap for
every non-palette depth. -/
def crxPostProcess (bpp mode w h : Nat) (buf : List Nat) : DRes (List Nat) := do
  let buf ← (if bpp = 32 ∧ mode ≠ 1 then
    alphaLoop (if 2 = mode then 0 else 0xFF) 0 (h * w) buf
  else .ok buf)
  if bpp ≠ 8 then swapLoop (bpp / 8) 0 (h * w) buf
  else .ok buf

/-- The signature bytes `b"CRXG"`. -/
def crxSignature : List Nat := [0x43, 0x52, 0x58, 0x47]

/-- `CrxFile::read`, parameterized by the external zlib inflater used for
version-2/3 payloads (`None` models a failing `flate2` stream).  The final
record stores `bpp = 24` for palettized sources. -/
def crxRead (inflate : List Nat → Option (List Nat)) (input : List Nat) :
    DRes CrxFile := do
  let (sig, s) ← readExact 4 input
  if sig ≠ crxSignature then .err .crxSignatureInvalid
  else do
    let (header, s) ← crxHeaderRead s
    let bpp := if header.depth = 0 then 24 else if header.depth = 1 then 32 else 8
    let (palette, s) ← (if bpp = 8 then read_palette header.depth s
      else .ok ([], s))
    let (clips, s) ← (if 3 ≤ header.version then read_clip s else .ok ([], s))
    let (compressed, _) ← (if header.flag &&& 0x10 ≠ 0 then do
      let (sz, s) ← readI32 s
      readExact (usizeOfI32 sz) s
    else (.ok (s, []) : DRes (List Nat × List Nat)))
    let context : CrxDataContext :=
      { width := header.width, height := header.height, bpp, palette }
    let colorData ← (if header.version = 1 then unpack_1 compressed context
      else match inflate compressed with
        | none => .err .malformedDeflate
        | some inflated => unpack_2 context inflated)
    let colorData ← crxPostProcess bpp header.mode header.width header.height colorData
    .ok { inner_x := header.inner_x, inner_y := header.inner_y,
          width := header.width, height := header.height,
          bpp := if bpp = 8 then 24 else bpp,
          clips, raw_image_buffer := colorData }

/-! Basic helper lemmas about buffer reads and writes. -/

theorem getD_set_self (l : List Nat) (i v : Nat) (h : i < l.length) :
    (l.set i v).getD i 0 = v := by
  simp [List.getD_eq_getElem?_getD, List.getElem?_set_self', List.getElem?_eq_getElem, h]

theorem getD_set_ne (l : List Nat) (i j v : Nat) (h : i ≠ j) :
    (l.set i v).getD j 0 = l.getD j 0 := by
  simp [List.getD_eq_getElem?_getD, List.getElem?_set_ne h]

theorem getB_ok_iff (l : List Nat) (i v : Nat) :
    getB l i = .ok v ↔ l[i]? = some v := by
  unfold getB
  cases h : l[i]? <;> simp

theorem setB_ok_iff (l : List Nat) (i v : Nat) (l' : List Nat) :
    setB l i v = .ok l' ↔ i < l.length ∧ l' = l.set i v := by
  unfold setB
  split <;> simp_all [eq_comm]

theorem setB_ok_length {l : List Nat} {i v : Nat} {l' : List Nat}
    (h : setB l i v = .ok l') : l'.length = l.length := by
  rw [setB_ok_iff] at h
  simp [h.2]

theorem writeSeq_length (bs : List Nat) : ∀ (out : List Nat) (off : Nat),
    (writeSeq out off bs).length = out.length := by
  induction bs with
  | nil => intro out off; rfl
  | cons b bs ih => intro out off; simp [writeSeq, ih]

theorem readInto_ok_length {s out : List Nat} {off len : Nat} {out' s' : List Nat}
    (h : readInto s out off len = .ok (out', s')) : out'.length = out.length := by
  unfold readInto at h
  split at h
  · unfold readExact at h
    split at h
    · simp only [DRes.monad_bind_eq, DRes.bind_ok, DRes.ok.injEq, Prod.mk.injEq] at h
      obtain ⟨h1, _⟩ := h
      rw [← h1, writeSeq_length]
    · simp at h
  · simp at h

theorem readU8_ok {s : List Nat} {v : Nat} {s' : List Nat}
    (h : readU8 s = .ok (v, s')) : s = v :: s' := by
  cases s <;> simp_all [readU8]

theorem DRes.bind_eq_ok {α β : Type} {m : DRes α} {f : α → DRes β} {b : β} :
    DRes.bind m f = .ok b ↔ ∃ a, m = .ok a ∧ f a = .ok b := by
  cases m <;> simp [DRes.bind]

theorem DRes.bind_eq_err {α β : Type} {m : DRes α} {f : α → DRes β} {e : DErr} :
    DRes.bind m f = .err e ↔ m = .err e ∨ ∃ a, m = .ok a ∧ f a = .err e := by
  cases m <;> simp [DRes.bind]

/-! Length preservation: every loop of the decoder returns a buffer of the
same length as the buffer it was given (when it returns `ok`). -/

theorem mode0Loop_ok_length (ps ro : Nat) :
    ∀ (n xb : Nat) (s out : List Nat) {out' s' : List Nat},
    mode0Loop ps ro xb n s out = .ok (out', s') → out'.length = out.length := by
  intro n
  induction n with
  | zero =>
    intro xb s out out' s' h
    simp only [mode0Loop, DRes.ok.injEq, Prod.mk.injEq] at h
    rw [← h.1]
  | succ n ih =>
    intro xb s out out' s' h
    unfold mode0Loop at h
    simp only [DRes.monad_bind_eq, DRes.bind_eq_ok] at h
    obtain ⟨⟨v, s1⟩, _, ⟨prev, _, ⟨out1, hs, h⟩⟩⟩ := h
    rw [ih _ _ _ h, setB_ok_length hs]

theorem mode1Loop_ok_length (po ro : Nat) :
    ∀ (n xb : Nat) (s out : List Nat) {out' s' : List Nat},
    mode1Loop po ro xb n s out = .ok (out', s') → out'.length = out.length := by
  intro n
  induction n with
  | zero =>
    intro xb s out out' s' h
    simp only [mode1Loop, DRes.ok.injEq, Prod.mk.injEq] at h
    rw [← h.1]
  | succ n ih =>
    intro xb s out out' s' h
    unfold mode1Loop at h
    simp only [DRes.monad_bind_eq, DRes.bind_eq_ok] at h
    obtain ⟨⟨v, s1⟩, _, ⟨prev, _, ⟨out1, hs, h⟩⟩⟩ := h
    rw [ih _ _ _ h, setB_ok_length hs]

theorem mode2Loop_ok_length (ps po ro : Nat) :
    ∀ (n xb : Nat) (s out : List Nat) {out' s' : List Nat},
    mode2Loop ps po ro xb n s out = .ok (out', s') → out'.length = out.length := by
  intro n
  induction n with
  | zero =>
    intro xb s out out' s' h
    simp only [mode2Loop, DRes.ok.injEq, Prod.mk.injEq] at h
    rw [← h.1]
  | succ n ih =>
    intro xb s out out' s' h
    unfold mode2Loop at h
    simp only [DRes.monad_bind_eq, DRes.bind_eq_ok] at h
    obtain ⟨⟨v, s1⟩, _, ⟨prev, _, ⟨out1, hs, h⟩⟩⟩ := h
    rw [ih _ _ _ h, setB_ok_length hs]

theorem mode3Loop_ok_length (ps po ro : Nat) :
    ∀ (n xb : Nat) (s out : List Nat) {out' s' : List Nat},
    mode3Loop ps po ro xb n s out = .ok (out', s') → out'.length = out.length := by
  intro n
  induction n with
  | zero =>
    intro xb s out out' s' h
    simp only [mode3Loop, DRes.ok.injEq, Prod.mk.injEq] at h
    rw [← h.1]
  | succ n ih =>
    intro xb s out out' s' h
    unfold mode3Loop at h
    simp only [DRes.monad_bind_eq, DRes.bind_eq_ok] at h
    obtain ⟨⟨v, s1⟩, _, ⟨prev, _, ⟨out1, hs, h⟩⟩⟩ := h
    rw [ih _ _ _ h, setB_ok_length hs]

theorem rleWrite_ok_length (ps v : Nat) :
    ∀ (k xb : Nat) (out : List Nat) {out' : List Nat} {xb' : Nat},
    rleWrite ps v k xb out = .ok (out', xb') → out'.length = out.length := by
  intro k
  induction k with
  | zero =>
    intro xb out out' xb' h
    simp only [rleWrite, DRes.ok.injEq, Prod.mk.injEq] at h
    rw [← h.1]
  | succ k ih =>
    intro xb out out' xb' h
    unfold rleWrite at h
    simp only [DRes.monad_bind_eq, DRes.bind_eq_ok] at h
    obtain ⟨out1, hs, h⟩ := h
    rw [ih _ _ h, setB_ok_length hs]

theorem mode4Col_ok_length (ps : Nat) :
    ∀ (fuel xb val remaining : Nat) (s out : List Nat) {out' s' : List Nat},
    mode4Col ps fuel xb val remaining s out = .ok (out', s') →
    out'.length = out.length := by
  intro fuel
  induction fuel with
  | zero => intro xb val remaining s out out' s' h; simp [mode4Col] at h
  | succ fuel ih =>
    intro xb val remaining s out out' s' h
    unfold mode4Col at h
    match remaining with
    | 0 =>
      simp only [DRes.ok.injEq, Prod.mk.injEq] at h
      rw [← h.1]
    | r + 1 =>
      simp only [DRes.monad_bind_eq, DRes.bind_eq_ok] at h
      obtain ⟨out1, hs, h⟩ := h
      rw [← setB_ok_length hs]
      split at h
      · simp only [DRes.ok.injEq, Prod.mk.injEq] at h
        rw [← h.1]
      · simp only [DRes.monad_bind_eq, DRes.bind_eq_ok] at h
        obtain ⟨⟨next, s1⟩, _, h⟩ := h
        split at h
        · simp only [DRes.monad_bind_eq, DRes.bind_eq_ok] at h
          obtain ⟨⟨count, s2⟩, _, ⟨⟨out2, xb2⟩, hrle, h⟩⟩ := h
          rw [← rleWrite_ok_length ps next _ _ _ hrle]
          split at h
          · simp at h
          · split at h
            · simp only [DRes.monad_bind_eq, DRes.bind_eq_ok] at h
              obtain ⟨⟨val2, s3⟩, _, h⟩ := h
              exact ih _ _ _ _ _ h
            · exact ih _ _ _ _ _ h
        · exact ih _ _ _ _ _ h

theorem mode4Comps_ok_length (ps w ro : Nat) :
    ∀ (n p : Nat) (s out : List Nat) {out' s' : List Nat},
    mode4Comps ps w ro p n s out = .ok (out', s') → out'.length = out.length := by
  intro n
  induction n with
  | zero =>
    intro p s out out' s' h
    simp only [mode4Comps, DRes.ok.injEq, Prod.mk.injEq] at h
    rw [← h.1]
  | succ n ih =>
    intro p s out out' s' h
    unfold mode4Comps at h
    simp only [DRes.monad_bind_eq, DRes.bind_eq_ok] at h
    obtain ⟨⟨val, s1⟩, _, ⟨⟨out1, s2⟩, hcol, h⟩⟩ := h
    rw [ih _ _ _ h, mode4Col_ok_length ps _ _ _ _ _ _ hcol]

theorem rowsLoop_ok_length (ps stride w : Nat) :
    ∀ (n y : Nat) (s out : List Nat) {out' s' : List Nat},
    rowsLoop ps stride w y n s out = .ok (out', s') → out'.length = out.length := by
  intro n
  induction n with
  | zero =>
    intro y s out out' s' h
    simp only [rowsLoop, DRes.ok.injEq, Prod.mk.injEq] at h
    rw [← h.1]
  | succ n ih =>
    intro y s out out' s' h
    unfold rowsLoop at h
    simp only [DRes.monad_bind_eq, DRes.bind_eq_ok] at h
    obtain ⟨⟨mode, s1⟩, _, h⟩ := h
    match mode with
    | 0 =>
      simp only [DRes.monad_bind_eq, DRes.bind_eq_ok] at h
      obtain ⟨⟨out1, s2⟩, h1, ⟨⟨out2, s3⟩, h2, h⟩⟩ := h
      rw [ih _ _ _ h, mode0Loop_ok_length _ _ _ _ _ _ h2, readInto_ok_length h1]
    | 1 =>
      cases hc : checkedSub (y * stride) stride with
      | none => rw [hc] at h; simp at h
      | some po =>
        rw [hc] at h
        simp only [DRes.monad_bind_eq, DRes.bind_eq_ok] at h
        obtain ⟨⟨out1, s2⟩, h1, h⟩ := h
        rw [ih _ _ _ h, mode1Loop_ok_length _ _ _ _ _ _ h1]
    | 2 =>
      cases hc : checkedSub (y * stride) stride with
      | none => rw [hc] at h; simp at h
      | some po =>
        rw [hc] at h
        simp only [DRes.monad_bind_eq, DRes.bind_eq_ok] at h
        obtain ⟨⟨out1, s2⟩, h1, ⟨⟨out2, s3⟩, h2, h⟩⟩ := h
        rw [ih _ _ _ h, mode2Loop_ok_length _ _ _ _ _ _ _ h2, readInto_ok_length h1]
    | 3 =>
      cases hc : checkedSub (y * stride) stride with
      | none => rw [hc] at h; simp at h
      | some po =>
        rw [hc] at h
        simp only [DRes.monad_bind_eq, DRes.bind_eq_ok] at h
        obtain ⟨⟨out1, s2⟩, h1, ⟨⟨out2, s3⟩, h2, h⟩⟩ := h
        rw [ih _ _ _ h, readInto_ok_length h2, mode3Loop_ok_length _ _ _ _ _ _ _ h1]
    | 4 =>
      simp only [DRes.monad_bind_eq, DRes.bind_eq_ok] at h
      obtain ⟨⟨out1, s2⟩, h1, h⟩ := h
      rw [ih _ _ _ h, mode4Comps_ok_length _ _ _ _ _ _ _ h1]
    | (m + 5) => simp at h

theorem palExpandLoop_ok_length (pal : List (Nat × Nat × Nat)) (idxs : List Nat)
    (ps : Nat) : ∀ (n pix : Nat) (out : List Nat) {out' : List Nat},
    palExpandLoop pal idxs ps pix n out = .ok out' → out'.length = out.length := by
  intro n
  induction n with
  | zero =>
    intro pix out out' h
    simp only [palExpandLoop, DRes.ok.injEq] at h
    rw [← h]
  | succ n ih =>
    intro pix out out' h
    unfold palExpandLoop at h
    simp only [DRes.monad_bind_eq, DRes.bind_eq_ok] at h
    obtain ⟨idx, _, h⟩ := h
    cases hp : pal[idx]? with
    | none => rw [hp] at h; simp at h
    | some c =>
      rw [hp] at h
      simp only [DRes.monad_bind_eq, DRes.bind_eq_ok] at h
      obtain ⟨out1, h1, ⟨out2, h2, ⟨out3, h3, h⟩⟩⟩ := h
      rw [ih _ _ h, setB_ok_length h3, setB_ok_length h2, setB_ok_length h1]

theorem unpack1Copy_out_length :
    ∀ (k : Nat) (win : List Nat) (wp off : Nat) (out : List Nat) (dst : Nat),
    ((unpack1Copy k win wp off out dst).2.2.1).length = out.length := by
  intro k
  induction k with
  | zero => intro win wp off out dst; rfl
  | succ k ih =>
    intro win wp off out dst
    unfold unpack1Copy
    split
    · rfl
    · rw [ih]
      simp

theorem unpack1Loop_ok_length :
    ∀ (fuel : Nat) (s : List Nat) (flag : Nat) (win : List Nat) (wp : Nat)
      (out : List Nat) (dst : Nat) {out' : List Nat},
    unpack1Loop fuel s flag win wp out dst = .ok out' →
    out'.length = out.length := by
  intro fuel
  induction fuel with
  | zero => intro s flag win wp out dst out' h; simp [unpack1Loop] at h
  | succ fuel ih =>
    intro s flag win wp out dst out' h
    unfold unpack1Loop at h
    split at h
    · simp only [DRes.monad_bind_eq, DRes.bind_eq_ok] at h
      obtain ⟨⟨flag1, s1⟩, _, h⟩ := h
      by_cases hf : flag1 &&& 1 ≠ 0
      · rw [if_pos hf] at h
        simp only [DRes.monad_bind_eq, DRes.bind_eq_ok] at h
        obtain ⟨⟨dat, s2⟩, _, h⟩ := h
        rw [ih _ _ _ _ _ _ h]
        simp
      · rw [if_neg hf] at h
        simp only [DRes.monad_bind_eq, DRes.bind_eq_ok] at h
        obtain ⟨⟨count, offset, s2⟩, _, h⟩ := h
        rw [ih _ _ _ _ _ _ h, unpack1Copy_out_length]
    · simp only [DRes.ok.injEq] at h
      rw [← h]

theorem unpack_1_ok_length {buf : List Nat} {context : CrxDataContext}
    {out : List Nat} (h : unpack_1 buf context = .ok out) :
    out.length = context.bpp / 8 * context.width * context.height := by
  unfold unpack_1 at h
  rw [unpack1Loop_ok_length _ _ _ _ _ _ _ h]
  simp

theorem alphaLoop_ok_length (flip : Nat) :
    ∀ (n pix : Nat) (buf : List Nat) {buf' : List Nat},
    alphaLoop flip pix n buf = .ok buf' → buf'.length = buf.length := by
  intro n
  induction n with
  | zero =>
    intro pix buf buf' h
    simp only [alphaLoop, DRes.ok.injEq] at h
    rw [← h]
  | succ n ih =>
    intro pix buf buf' h
    unfold alphaLoop at h
    simp only [DRes.monad_bind_eq, DRes.bind_eq_ok] at h
    obtain ⟨a, _, ⟨b, _, ⟨g, _, ⟨r, _, ⟨b1, h1, ⟨b2, h2, ⟨b3, h3, ⟨b4, h4, h⟩⟩⟩⟩⟩⟩⟩⟩ := h
    rw [ih _ _ h, setB_ok_length h4, setB_ok_length h3, setB_ok_length h2,
      setB_ok_length h1]

theorem swapLoop_ok_length (ps : Nat) :
    ∀ (n pix : Nat) (buf : List Nat) {buf' : List Nat},
    swapLoop ps pix n buf = .ok buf' → buf'.length = buf.length := by
  intro n
  induction n with
  | zero =>
    intro pix buf buf' h
    simp only [swapLoop, DRes.ok.injEq] at h
    rw [← h]
  | succ n ih =>
    intro pix buf buf' h
    unfold swapLoop at h
    simp only [DRes.monad_bind_eq, DRes.bind_eq_ok] at h
    obtain ⟨x, _, ⟨z, _, ⟨b1, h1, ⟨b2, h2, h⟩⟩⟩⟩ := h
    rw [ih _ _ h, setB_ok_length h2, setB_ok_length h1]

theorem crxPostProcess_ok_length {bpp mode w h : Nat} {buf buf' : List Nat}
    (hp : crxPostProcess bpp mode w h buf = .ok buf') :
    buf'.length = buf.length := by
  unfold crxPostProcess at hp
  simp only [DRes.monad_bind_eq, DRes.bind_eq_ok] at hp
  obtain ⟨buf1, h1, h2⟩ := hp
  have e1 : buf1.length = buf.length := by
    split at h1
    · exact alphaLoop_ok_length _ _ _ _ h1
    · simp only [DRes.ok.injEq] at h1; rw [← h1]
  split at h2
  · rw [swapLoop_ok_length _ _ _ _ h2, e1]
  · simp only [DRes.ok.injEq] at h2; rw [← h2, e1]

theorem unpack_2_ok_length {context : CrxDataContext} {s out : List Nat}
    (h : unpack_2 context s = .ok out) :
    out.length =
      (if context.bpp / 8 = 1 then 3 else context.bpp / 8) * context.width *
        context.height := by
  simp only [unpack_2] at h
  split at h
  · simp only [DRes.monad_bind_eq, DRes.bind_eq_ok] at h
    obtain ⟨⟨idxs, s1⟩, _, h⟩ := h
    rw [palExpandLoop_ok_length _ _ _ _ _ _ h]
    simp only [List.length_replicate]
    rw [if_pos ‹context.bpp / 8 = 1›, Nat.mul_assoc]
  · simp only [DRes.monad_bind_eq, DRes.bind_eq_ok] at h
    obtain ⟨⟨out1, s1⟩, h1, h⟩ := h
    simp only [DRes.ok.injEq] at h
    rw [← h, rowsLoop_ok_length _ _ _ _ _ _ _ h1]
    simp only [List.length_replicate]
    rw [if_neg ‹¬context.bpp / 8 = 1›, Nat.mul_assoc]

theorem readU16_ok {s : List Nat} {v : Nat} {s' : List Nat}
    (h : readU16 s = .ok (v, s')) :
    ∃ lo hi, s = lo :: hi :: s' ∧ v = lo + 256 * hi := by
  unfold readU16 at h
  simp only [DRes.monad_bind_eq, DRes.bind_eq_ok] at h
  obtain ⟨⟨lo, s1⟩, h1, ⟨⟨hi, s2⟩, h2, h⟩⟩ := h
  dsimp only at h2 h
  simp only [DRes.ok.injEq, Prod.mk.injEq] at h
  exact ⟨lo, hi, by rw [readU8_ok h1, readU8_ok h2, h.2], h.1.symm⟩

theorem readI16_ok {s : List Nat} {v : Int} {s' : List Nat}
    (h : readI16 s = .ok (v, s')) :
    ∃ lo hi, s = lo :: hi :: s' ∧ v = asI16 (lo + 256 * hi) := by
  unfold readI16 at h
  simp only [DRes.monad_bind_eq, DRes.bind_eq_ok] at h
  obtain ⟨⟨u, s1⟩, h1, h⟩ := h
  simp only [DRes.ok.injEq, Prod.mk.injEq] at h
  obtain ⟨lo, hi, hs, hv⟩ := readU16_ok h1
  exact ⟨lo, hi, by rw [hs, h.2], by rw [← h.1, hv]⟩

/-- Inversion of a successful header parse: the sixteen header bytes, the
parsed field values, and the fact that the version guard passed. -/
theorem crxHeaderRead_ok_facts {s : List Nat} {hdr : CrxHeader} {rest : List Nat}
    (h : crxHeaderRead s = .ok (hdr, rest)) :
    ∃ b0 b1 b2 b3 b4 b5 b6 b7 b8 b9 b10 b11 b12 b13 b14 b15,
      s = b0 :: b1 :: b2 :: b3 :: b4 :: b5 :: b6 :: b7 :: b8 :: b9 :: b10 ::
        b11 :: b12 :: b13 :: b14 :: b15 :: rest ∧
      hdr = { inner_x := asI16 (b0 + 256 * b1), inner_y := asI16 (b2 + 256 * b3),
              width := b4 + 256 * b5, height := b6 + 256 * b7,
              version := b8 + 256 * b9, flag := b10 + 256 * b11,
              depth := asI16 (b12 + 256 * b13), mode := b14 + 256 * b15 } ∧
      1 ≤ hdr.version ∧ hdr.version ≤ 3 := by
  unfold crxHeaderRead at h
  simp only [DRes.monad_bind_eq, DRes.bind_eq_ok] at h
  obtain ⟨⟨x1, s1⟩, h1, ⟨⟨x2, s2⟩, h2, ⟨⟨x3, s3⟩, h3, ⟨⟨x4, s4⟩, h4, ⟨⟨x5, s5⟩,
    h5, ⟨⟨x6, s6⟩, h6, ⟨⟨x7, s7⟩, h7, ⟨⟨x8, s8⟩, h8, h⟩⟩⟩⟩⟩⟩⟩⟩ := h
  dsimp only at h2 h3 h4 h5 h6 h7 h8 h
  split at h
  next hv =>
    simp only [DRes.ok.injEq, Prod.mk.injEq] at h
    obtain ⟨hrec, hrest⟩ := h
    obtain ⟨b0, b1, e1, v1⟩ := readI16_ok h1
    obtain ⟨b2, b3, e2, v2⟩ := readI16_ok h2
    obtain ⟨b4, b5, e3, v3⟩ := readU16_ok h3
    obtain ⟨b6, b7, e4, v4⟩ := readU16_ok h4
    obtain ⟨b8, b9, e5, v5⟩ := readU16_ok h5
    obtain ⟨b10, b11, e6, v6⟩ := readU16_ok h6
    obtain ⟨b12, b13, e7, v7⟩ := readI16_ok h7
    obtain ⟨b14, b15, e8, v8⟩ := readU16_ok h8
    subst hrest hrec e1 e2 e3 e4 e5 e6 e7 e8 v1 v2 v3 v4 v5 v6 v7 v8
    exact ⟨b0, b1, b2, b3, b4, b5, b6, b7, b8, b9, b10, b11, b12, b13, b14, b15,
      rfl, rfl, hv.1, hv.2⟩
  next => simp at h

/-- Inversion of the top level of a successful decode: the header parse
succeeded on the bytes after the signature, the record copies the header
dimensions, the stored `bpp` is 24 except for `depth == 1` sources, and the
pixel buffer length is the one produced by the selected decompressor. -/
theorem crxRead_ok_facts {inflate : List Nat → Option (List Nat)}
    {input : List Nat} {f : CrxFile} (h : crxRead inflate input = .ok f) :
    ∃ hdr rest, crxHeaderRead (input.drop 4) = .ok (hdr, rest) ∧
      f.width = hdr.width ∧ f.height = hdr.height ∧
      f.bpp = (if hdr.depth = 1 then 32 else 24) ∧
      f.raw_image_buffer.length = f.width * f.height *
        (if hdr.version = 1 ∧ hdr.depth ≠ 0 ∧ hdr.depth ≠ 1 then 1
         else f.bpp / 8) := by
  simp only [crxRead, DRes.monad_bind_eq, DRes.bind_eq_ok] at h
  obtain ⟨⟨sig, s⟩, hsig, h⟩ := h
  have hs : s = input.drop 4 := by
    unfold readExact at hsig
    split at hsig
    · simp only [DRes.ok.injEq, Prod.mk.injEq] at hsig
      exact hsig.2.symm
    · simp at hsig
  split at h
  · simp at h
  · simp only [DRes.bind_eq_ok] at h
    obtain ⟨⟨hdr, s1⟩, hhdr, h⟩ := h
    refine ⟨hdr, s1, hs ▸ hhdr, ?_⟩
    simp only [DRes.monad_bind_eq, DRes.bind_eq_ok] at h
    obtain ⟨⟨palette, s2⟩, _, ⟨⟨clips, s3⟩, _, ⟨⟨compressed, s4⟩, _,
      ⟨colorData, hun, ⟨colorData2, hpost, h⟩⟩⟩⟩⟩ := h
    simp only [DRes.ok.injEq] at h
    dsimp only at hun
    have hw : f.width = hdr.width := by rw [← h]
    have hh : f.height = hdr.height := by rw [← h]
    have hlen2 : f.raw_image_buffer.length = colorData.length := by
      rw [← h]
      exact crxPostProcess_ok_length hpost
    have hcd : ∀ bpp : Nat,
        (if hdr.version = 1 then
          unpack_1 compressed ⟨hdr.width, hdr.height, bpp, palette⟩
        else
          match inflate compressed with
          | none => .err .malformedDeflate
          | some inflated =>
            unpack_2 ⟨hdr.width, hdr.height, bpp, palette⟩ inflated) =
          .ok colorData →
        (hdr.version = 1 → colorData.length = bpp / 8 * hdr.width * hdr.height) ∧
        (hdr.version ≠ 1 → colorData.length =
          (if bpp / 8 = 1 then 3 else bpp / 8) * hdr.width * hdr.height) := by
      intro bpp hun'
      by_cases hv1 : hdr.version = 1
      · rw [if_pos hv1] at hun'
        exact ⟨fun _ => unpack_1_ok_length hun', fun hc => absurd hv1 hc⟩
      · rw [if_neg hv1] at hun'
        refine ⟨fun hc => absurd hc hv1, fun _ => ?_⟩
        cases hinf : inflate compressed with
        | none => rw [hinf] at hun'; simp at hun'
        | some inflated =>
          rw [hinf] at hun'
          exact unpack_2_ok_length hun'
    by_cases d0 : hdr.depth = 0
    · have hb : f.bpp = 24 := by rw [← h]; simp [d0]
      have d1 : ¬hdr.depth = 1 := by rw [d0]; decide
      refine ⟨hw, hh, by rw [hb, if_neg d1], ?_⟩
      rw [if_neg d1, if_pos d0] at hun
      have hc := hcd 24 hun
      rw [hlen2, hb, hw, hh, if_neg (by simp [d0])]
      by_cases hv1 : hdr.version = 1
      · rw [hc.1 hv1]; ring
      · rw [hc.2 hv1]; norm_num; ring
    · by_cases d1 : hdr.depth = 1
      · have hb : f.bpp = 32 := by rw [← h]; simp [d0, d1]
        refine ⟨hw, hh, by rw [hb, if_pos d1], ?_⟩
        rw [if_neg d0, if_pos d1] at hun
        have hc := hcd 32 hun
        rw [hlen2, hb, hw, hh, if_neg (by simp [d1])]
        by_cases hv1 : hdr.version = 1
        · rw [hc.1 hv1]; ring
        · rw [hc.2 hv1]; norm_num; ring
      · have hb : f.bpp = 24 := by rw [← h]; simp [d0, d1]
        refine ⟨hw, hh, by rw [hb, if_neg d1], ?_⟩
        rw [if_neg d0, if_neg d1] at hun
        have hc := hcd 8 hun
        rw [hlen2, hb, hw, hh]
        by_cases hv1 : hdr.version = 1
        · have e88 : (8 : Nat) / 8 = 1 := rfl
          rw [hc.1 hv1, if_pos ⟨hv1, d0, d1⟩, e88, Nat.one_mul, Nat.mul_one]
        · have hnc : ¬(hdr.version = 1 ∧ hdr.depth ≠ 0 ∧ hdr.depth ≠ 1) := by
            simp [hv1]
          have e3 : (if (8 : Nat) / 8 = 1 then 3 else (8 : Nat) / 8) = 3 := rfl
          have e243 : (24 : Nat) / 8 = 3 := rfl
          rw [hc.2 hv1, if_neg hnc, e3, e243]
          ring

/-! Claim C1. -/

/-- C1 (corrected): for every accepted input, the pixel buffer length equals
`width * height * (final_bpp / 8)` — except for version-1 inputs whose depth
selects 8 bpp, where `unpack_1` allocates one byte per pixel and no palette
expansion takes place, so the length is `width * height` even though the
record stores `bpp = 24`. -/
theorem c1_buffer_size (inflate : List Nat → Option (List Nat))
    (input : List Nat) (f : CrxFile) (h : crxRead inflate input = .ok f) :
    ∃ hdr rest, crxHeaderRead (input.drop 4) = .ok (hdr, rest) ∧
      f.raw_image_buffer.length = f.width * f.height *
        (if hdr.version = 1 ∧ hdr.depth ≠ 0 ∧ hdr.depth ≠ 1 then 1
         else f.bpp / 8) := by
  obtain ⟨hdr, rest, h1, _, _, _, h5⟩ := crxRead_ok_facts h
  exact ⟨hdr, rest, h1, h5⟩

/-- C1 counterexample: a version-1 file with depth 2 (8 bpp, two palette
entries) and a one-pixel image is accepted, but its pixel buffer holds one
byte, not `width * height * (final_bpp / 8) = 3` bytes. -/
theorem c1_counterexample :
    ∃ f, crxRead (fun _ => none)
        [0x43, 0x52, 0x58, 0x47,
         0, 0, 0, 0, 1, 0, 1, 0, 1, 0, 0, 0, 2, 0, 0, 0,
         0, 0, 0, 1, 1, 1,
         0x01, 0xAB] = .ok f ∧
      f.raw_image_buffer.length ≠ f.width * f.height * (f.bpp / 8) := by
  refine ⟨{ inner_x := 0, inner_y := 0, width := 1, height := 1, bpp := 24,
            clips := [], raw_image_buffer := [0xAB] }, ?_, ?_⟩
  · decide
  · decide

/-- C1 witness: the amended statement evaluated on an accepted version-2
24-bpp one-pixel file. -/
theorem c1_witness :
    crxRead (fun l => some l)
        [0x43, 0x52, 0x58, 0x47,
         0, 0, 0, 0, 1, 0, 1, 0, 2, 0, 0, 0, 0, 0, 0, 0,
         0, 5, 6, 7] =
      .ok { inner_x := 0, inner_y := 0, width := 1, height := 1, bpp := 24,
            clips := [], raw_image_buffer := [7, 6, 5] } ∧
    ∃ hdr rest,
      crxHeaderRead (List.drop 4
        [0x43, 0x52, 0x58, 0x47,
         0, 0, 0, 0, 1, 0, 1, 0, 2, 0, 0, 0, 0, 0, 0, 0,
         0, 5, 6, 7]) = .ok (hdr, rest) ∧
      (List.length [7, 6, 5]) = 1 * 1 *
        (if hdr.version = 1 ∧ hdr.depth ≠ 0 ∧ hdr.depth ≠ 1 then 1
         else 24 / 8) :=
  ⟨by decide, c1_buffer_size (fun l => some l) _
    { inner_x := 0, inner_y := 0, width := 1, height := 1, bpp := 24,
      clips := [], raw_image_buffer := [7, 6, 5] } (by decide)⟩

/-! Claim C9. -/

/-- C9 (corrected): the decoder performs no positivity validation of `width`
or `height`; an input with `width == 0` or `height == 0` can decode
successfully, and every accepted such input carries an empty pixel buffer. -/
theorem c9_zero_dims (inflate : List Nat → Option (List Nat))
    (input : List Nat) (f : CrxFile) (h : crxRead inflate input = .ok f)
    (hz : f.width = 0 ∨ f.height = 0) : f.raw_image_buffer = [] := by
  obtain ⟨hdr, rest, _, _, _, _, h5⟩ := crxRead_ok_facts h
  have hlen : f.raw_image_buffer.length = 0 := by
    rcases hz with hz | hz <;> simp [h5, hz]
  exact List.length_eq_zero.mp hlen

/-- C9 counterexample: a version-1 file whose header has `width == 0` and
`height == 0` is decoded successfully. -/
theorem c9_counterexample :
    ∃ f, crxRead (fun _ => none)
        [0x43, 0x52, 0x58, 0x47,
         0, 0, 0, 0, 0, 0, 0, 0, 1, 0, 0, 0, 0, 0, 0, 0] = .ok f ∧
      f.width = 0 ∧ f.height = 0 := by
  refine ⟨{ inner_x := 0, inner_y := 0, width := 0, height := 0, bpp := 24,
            clips := [], raw_image_buffer := [] }, ?_, rfl, rfl⟩
  decide

/-- C9 witness for the amended statement. -/
theorem c9_witness :
    crxRead (fun _ => none)
        [0x43, 0x52, 0x58, 0x47,
         0, 0, 0, 0, 0, 0, 0, 0, 1, 0, 0, 0, 0, 0, 0, 0] =
      .ok { inner_x := 0, inner_y := 0, width := 0, height := 0, bpp := 24,
            clips := [], raw_image_buffer := [] } ∧
    ({ inner_x := 0, inner_y := 0, width := 0, height := 0, bpp := 24,
       clips := [], raw_image_buffer := [] } : CrxFile).raw_image_buffer = [] :=
  ⟨by decide, c9_zero_dims (fun _ => none)
    [0x43, 0x52, 0x58, 0x47,
     0, 0, 0, 0, 0, 0, 0, 0, 1, 0, 0, 0, 0, 0, 0, 0]
    { inner_x := 0, inner_y := 0, width := 0, height := 0, bpp := 24,
      clips := [], raw_image_buffer := [] } (by decide) (Or.inl rfl)⟩

/-! Claim C5. -/

/-- C5 (code bug): on the failing input — a 2-by-1 24-bpp version-2/3 image
whose single (hence last) row uses filter mode 4 with a run count of 2
against a remaining counter of 1 — the decoder performs an out-of-bounds
write and aborts, instead of failing with `RowOverflow` as specified: the
run loop writes its copies before `remaining.checked_sub(count)` is
consulted. -/
theorem c5_rowoverflow_panic :
    unpack_2 ⟨2, 1, 24, []⟩ [4, 0x10, 0x10, 2] = .panic ∧
    unpack_2 ⟨2, 1, 24, []⟩ [4, 0x10, 0x10, 2] ≠ .err .rowOverflow := by
  constructor
  · decide
  · decide

/-! Claim C10. -/

/-- C10 (code bug): the mode-4 RLE inner run loop is not bounds-checked
against the remaining-samples counter; on a 2-by-1 32-bpp image whose row
uses mode 4 with run count 2 against a remaining counter of 1, the second
copy targets index 8 of the 8-byte output buffer and the decoder aborts on
an out-of-bounds index instead of returning a categorized error. -/
theorem c10_mode4_oob :
    unpack_2 ⟨2, 1, 32, []⟩ [4, 7, 7, 2] = .panic := by decide

/-! Claim C8. -/

theorem exists_cons16 (l : List Nat) (h : 16 ≤ l.length) :
    ∃ b0 b1 b2 b3 b4 b5 b6 b7 b8 b9 b10 b11 b12 b13 b14 b15 t,
      l = b0 :: b1 :: b2 :: b3 :: b4 :: b5 :: b6 :: b7 :: b8 :: b9 :: b10 ::
        b11 :: b12 :: b13 :: b14 :: b15 :: t := by
  rcases l with _ | ⟨b0, _ | ⟨b1, _ | ⟨b2, _ | ⟨b3, _ | ⟨b4, _ | ⟨b5, _ | ⟨b6,
    _ | ⟨b7, _ | ⟨b8, _ | ⟨b9, _ | ⟨b10, _ | ⟨b11, _ | ⟨b12, _ | ⟨b13,
    _ | ⟨b14, _ | ⟨b15, t⟩⟩⟩⟩⟩⟩⟩⟩⟩⟩⟩⟩⟩⟩⟩⟩ <;>
    simp only [List.length_nil, List.length_cons] at h
  all_goals first
    | exact ⟨b0, b1, b2, b3, b4, b5, b6, b7, b8, b9, b10, b11, b12, b13, b14,
        b15, t, rfl⟩
    | omega

theorem readExact4_cons (a b c d : Nat) (t : List Nat) :
    readExact 4 (a :: b :: c :: d :: t) = .ok ([a, b, c, d], t) := by
  simp [readExact]

/-- Forward evaluation of the header parser on sixteen explicit bytes. -/
theorem crxHeaderRead_cons (b0 b1 b2 b3 b4 b5 b6 b7 b8 b9 b10 b11 b12 b13 b14
    b15 : Nat) (t : List Nat) :
    crxHeaderRead (b0 :: b1 :: b2 :: b3 :: b4 :: b5 :: b6 :: b7 :: b8 :: b9 ::
        b10 :: b11 :: b12 :: b13 :: b14 :: b15 :: t) =
      (if 1 ≤ b8 + 256 * b9 ∧ b8 + 256 * b9 ≤ 3 then
        .ok ({ inner_x := asI16 (b0 + 256 * b1), inner_y := asI16 (b2 + 256 * b3),
               width := b4 + 256 * b5, height := b6 + 256 * b7,
               version := b8 + 256 * b9, flag := b10 + 256 * b11,
               depth := asI16 (b12 + 256 * b13), mode := b14 + 256 * b15 }, t)
      else .err (.versionNotSupported (b8 + 256 * b9))) := rfl

/-- C8 (confirmed): whenever the parsed version field is outside `{1, 2, 3}`,
decoding fails with `VersionNotSupported` carrying the offending value; the
result is the same for every continuation `t` of the 16 header bytes and for
every inflater, so no byte past the header block (palette, clip table or
payload) influences — or needs to exist for — the failure. -/
theorem c8_version_guard (inflate : List Nat → Option (List Nat))
    (hdr : List Nat) (h16 : 16 ≤ hdr.length)
    (hv : ¬(1 ≤ hdr.getD 8 0 + 256 * hdr.getD 9 0 ∧
            hdr.getD 8 0 + 256 * hdr.getD 9 0 ≤ 3)) :
    crxRead inflate (0x43 :: 0x52 :: 0x58 :: 0x47 :: hdr) =
      .err (.versionNotSupported (hdr.getD 8 0 + 256 * hdr.getD 9 0)) := by
  obtain ⟨b0, b1, b2, b3, b4, b5, b6, b7, b8, b9, b10, b11, b12, b13, b14, b15,
    t, rfl⟩ := exists_cons16 hdr h16
  simp only [List.getD_cons_succ, List.getD_cons_zero] at hv ⊢
  simp only [crxRead, readExact4_cons, DRes.monad_bind_eq, DRes.bind_ok,
    crxSignature]
  rw [if_neg (by simp)]
  rw [crxHeaderRead_cons, if_neg hv]
  rfl

/-- C8 witness: a header carrying version 4 is rejected with that value. -/
theorem c8_witness :
    16 ≤ (List.length [0, 0, 0, 0, 1, 0, 1, 0, 4, 0, 0, 0, 0, 0, 0, 0]) ∧
    crxRead (fun _ => none)
      (0x43 :: 0x52 :: 0x58 :: 0x47 ::
        [0, 0, 0, 0, 1, 0, 1, 0, 4, 0, 0, 0, 0, 0, 0, 0]) =
      .err (.versionNotSupported
        (List.getD [0, 0, 0, 0, 1, 0, 1, 0, 4, 0, 0, 0, 0, 0, 0, 0] 8 0 +
          256 * List.getD [0, 0, 0, 0, 1, 0, 1, 0, 4, 0, 0, 0, 0, 0, 0, 0] 9 0)) :=
  ⟨by decide, c8_version_guard (fun _ => none)
    [0, 0, 0, 0, 1, 0, 1, 0, 4, 0, 0, 0, 0, 0, 0, 0] (by decide) (by decide)⟩

/-! Claim C6. -/

/-- C6 (corrected): in the version-2/3 direct case (24 or 32 bpp), a
filter-mode byte of 1, 2 or 3 on the first row fails with `NoPreviousRow`
provided the image width is positive — with `width == 0` the stride is 0,
`0.checked_sub(0)` succeeds, and the empty row decodes without error. -/
theorem c6_no_previous_row (w h bpp : Nat) (pal : List (Nat × Nat × Nat))
    (m : Nat) (rest : List Nat) (hw : 0 < w) (hh : 0 < h)
    (hbpp : bpp = 24 ∨ bpp = 32) (hm : m = 1 ∨ m = 2 ∨ m = 3) :
    unpack_2 ⟨w, h, bpp, pal⟩ (m :: rest) = .err .noPreviousRow := by
  obtain ⟨h', rfl⟩ : ∃ h', h = h' + 1 := ⟨h - 1, by omega⟩
  have hsub : ∀ ps : Nat, 0 < ps → checkedSub 0 (ps * w) = none := by
    intro ps hps
    have hz : ¬ (ps * w ≤ 0) := by
      simp only [Nat.le_zero]
      exact Nat.mul_ne_zero (by omega) (by omega)
    unfold checkedSub
    rw [if_neg hz]
  rcases hbpp with rfl | rfl <;> rcases hm with rfl | rfl | rfl <;>
    simp [unpack_2, rowsLoop, readU8, hsub]

/-- C6 counterexample: with `width == 0` a first-row filter-mode byte of 1
decodes successfully instead of failing with `NoPreviousRow`. -/
theorem c6_counterexample :
    unpack_2 ⟨0, 1, 24, []⟩ [1] = .ok [] ∧
    unpack_2 ⟨0, 1, 24, []⟩ [1] ≠ .err .noPreviousRow := by
  constructor
  · decide
  · decide

/-- C6 witness: a 1-by-1 24-bpp first row with mode byte 1. -/
theorem c6_witness :
    unpack_2 ⟨1, 1, 24, []⟩ [1] = .err .noPreviousRow :=
  c6_no_previous_row 1 1 24 [] 1 [] (by decide) (by decide) (Or.inl rfl)
    (Or.inl rfl)

/-! Palette-expansion lemmas for claims C2 and C7. -/

theorem getB_of_lt {l : List Nat} {i : Nat} (h : i < l.length) :
    getB l i = .ok (l.getD i 0) := by
  unfold getB
  rw [List.getElem?_eq_getElem h]
  simp [List.getD_eq_getElem?_getD, List.getElem?_eq_getElem h]

theorem getB_ok_inv {l : List Nat} {i v : Nat} (h : getB l i = .ok v) :
    i < l.length ∧ v = l.getD i 0 := by
  unfold getB at h
  cases hq : l[i]? with
  | none => rw [hq] at h; cases h
  | some x =>
    rw [hq] at h
    simp only [DRes.ok.injEq] at h
    have hlt := List.getElem?_eq_some.mp hq
    exact ⟨hlt.1, by simp [← h, List.getD_eq_getElem?_getD, hq]⟩

theorem getElem?_of_lt_pal {pal : List (Nat × Nat × Nat)} {i : Nat}
    (h : i < pal.length) : pal[i]? = some (pal.getD i (0, 0, 0)) := by
  rw [List.getElem?_eq_getElem h]
  simp [List.getD_eq_getElem?_getD, List.getElem?_eq_getElem h]

theorem getElem?_none_of_le {pal : List (Nat × Nat × Nat)} {i : Nat}
    (h : pal.length ≤ i) : pal[i]? = none :=
  List.getElem?_eq_none h

/-- The three writes of one palette pixel, in bounds, write the entry. -/
theorem palExpand_writes {out : List Nat} {pix ps : Nat} (_hps : 3 ≤ ps)
    (c : Nat × Nat × Nat) (hb : pix * ps + 2 < out.length) :
    ∃ out3, (do
      let out1 ← setB out (pix * ps) c.1
      let out2 ← setB out1 (pix * ps + 1) c.2.1
      setB out2 (pix * ps + 2) c.2.2 : DRes (List Nat)) = .ok out3 ∧
      out3.length = out.length ∧
      out3.getD (pix * ps) 0 = c.1 ∧
      out3.getD (pix * ps + 1) 0 = c.2.1 ∧
      out3.getD (pix * ps + 2) 0 = c.2.2 ∧
      (∀ k, k ≠ pix * ps → k ≠ pix * ps + 1 → k ≠ pix * ps + 2 →
        out3.getD k 0 = out.getD k 0) := by
  have h0 : pix * ps < out.length := by omega
  have h1 : pix * ps + 1 < out.length := by omega
  refine ⟨((out.set (pix * ps) c.1).set (pix * ps + 1) c.2.1).set
    (pix * ps + 2) c.2.2, ?_, ?_, ?_, ?_, ?_, ?_⟩
  · simp only [DRes.monad_bind_eq]
    rw [setB, if_pos h0]
    simp only [DRes.bind_ok]
    rw [setB, if_pos (by simpa using h1)]
    simp only [DRes.bind_ok]
    rw [setB, if_pos (by simpa using hb)]
  · simp
  · rw [getD_set_ne _ _ _ _ (by omega), getD_set_ne _ _ _ _ (by omega),
      getD_set_self _ _ _ h0]
  · rw [getD_set_ne _ _ _ _ (by omega),
      getD_set_self _ _ _ (by simpa using h1)]
  · rw [getD_set_self _ _ _ (by simpa using hb)]
  · intro k hk0 hk1 hk2
    rw [getD_set_ne _ _ _ _ (Ne.symm hk2), getD_set_ne _ _ _ _ (Ne.symm hk1),
      getD_set_ne _ _ _ _ (Ne.symm hk0)]

/-- Writes of later pixels do not touch bytes before the current pixel. -/
theorem palExpandLoop_preserves (pal : List (Nat × Nat × Nat)) (idxs : List Nat)
    (ps : Nat) : ∀ (n pix : Nat) (out out' : List Nat),
    palExpandLoop pal idxs ps pix n out = .ok out' →
    ∀ k, k < pix * ps → out'.getD k 0 = out.getD k 0 := by
  intro n
  induction n with
  | zero =>
    intro pix out out' h k hk
    simp only [palExpandLoop, DRes.ok.injEq] at h
    rw [← h]
  | succ n ih =>
    intro pix out out' h k hk
    unfold palExpandLoop at h
    simp only [DRes.monad_bind_eq, DRes.bind_eq_ok] at h
    obtain ⟨idx, hidx, h⟩ := h
    cases hq : pal[idx]? with
    | none => rw [hq] at h; simp at h
    | some c =>
      rw [hq] at h
      simp only [DRes.monad_bind_eq, DRes.bind_eq_ok] at h
      obtain ⟨out1, h1, ⟨out2, h2, ⟨out3, h3, h⟩⟩⟩ := h
      obtain ⟨b1, e1⟩ := (setB_ok_iff _ _ _ _).mp h1
      obtain ⟨b2, e2⟩ := (setB_ok_iff _ _ _ _).mp h2
      obtain ⟨b3, e3⟩ := (setB_ok_iff _ _ _ _).mp h3
      have hk1 : k < (pix + 1) * ps := by
        have : pix * ps ≤ (pix + 1) * ps := Nat.mul_le_mul_right ps (by omega)
        omega
      rw [ih _ _ _ h k hk1, e3, getD_set_ne _ _ _ _ (by omega), e2,
        getD_set_ne _ _ _ _ (by omega), e1, getD_set_ne _ _ _ _ (by omega)]

/-- Successful palette expansion: when every remaining index is in range, the
loop succeeds and writes `palette[idxs[j]]` at the three bytes of pixel `j`. -/
theorem palExpandLoop_ok_of_lt (pal : List (Nat × Nat × Nat)) (idxs : List Nat)
    (ps : Nat) (hps : 3 ≤ ps) : ∀ (n pix : Nat) (out : List Nat),
    out.length = ps * idxs.length → pix + n = idxs.length →
    (∀ j, pix ≤ j → j < idxs.length → idxs.getD j 0 < pal.length) →
    ∃ out', palExpandLoop pal idxs ps pix n out = .ok out' ∧
      out'.length = out.length ∧
      ∀ j, pix ≤ j → j < idxs.length →
        out'.getD (j * ps) 0 = (pal.getD (idxs.getD j 0) (0, 0, 0)).1 ∧
        out'.getD (j * ps + 1) 0 = (pal.getD (idxs.getD j 0) (0, 0, 0)).2.1 ∧
        out'.getD (j * ps + 2) 0 = (pal.getD (idxs.getD j 0) (0, 0, 0)).2.2 := by
  intro n
  induction n with
  | zero =>
    intro pix out hlen hrange hgood
    exact ⟨out, rfl, rfl, fun j hj1 hj2 => absurd (hrange ▸ hj2) (by omega)⟩
  | succ n ih =>
    intro pix out hlen hrange hgood
    have hpix : pix < idxs.length := by omega
    have hb : pix * ps + 2 < out.length := by
      rw [hlen]
      have : (pix + 1) * ps ≤ idxs.length * ps :=
        Nat.mul_le_mul_right ps (by omega)
      calc pix * ps + 2 < pix * ps + ps := by omega
        _ = (pix + 1) * ps := by ring
        _ ≤ idxs.length * ps := this
        _ = ps * idxs.length := Nat.mul_comm _ _
    obtain ⟨out3, hw, hwlen, hv0, hv1, hv2, hother⟩ :=
      palExpand_writes hps (pal.getD (idxs.getD pix 0) (0, 0, 0)) hb
    obtain ⟨out', hrec, hlen', hvals⟩ := ih (pix + 1) out3
      (by rw [hwlen, hlen]) (by omega)
      (fun j hj1 hj2 => hgood j (by omega) hj2)
    refine ⟨out', ?_, by rw [hlen', hwlen], ?_⟩
    · unfold palExpandLoop
      simp only [DRes.monad_bind_eq, DRes.bind_eq_ok]
      refine ⟨idxs.getD pix 0, getB_of_lt hpix, ?_⟩
      rw [getElem?_of_lt_pal (hgood pix (by omega) hpix)]
      simp only [DRes.monad_bind_eq, DRes.bind_eq_ok] at hw ⊢
      obtain ⟨o1, e1, o2, e2, e3⟩ := hw
      exact ⟨o1, e1, o2, e2, out3, e3, hrec⟩
    · intro j hj1 hj2
      rcases Nat.eq_or_lt_of_le hj1 with rfl | hlt
      · have hpres := palExpandLoop_preserves pal idxs ps n (pix + 1) out3 out' hrec
        have hstep : pix * ps + 3 ≤ (pix + 1) * ps := by
          calc pix * ps + 3 ≤ pix * ps + ps := by omega
            _ = (pix + 1) * ps := by ring
        refine ⟨?_, ?_, ?_⟩
        · rw [hpres _ (by omega), hv0]
        · rw [hpres _ (by omega), hv1]
        · rw [hpres _ (by omega), hv2]
      · exact hvals j hlt hj2

/-- Inversion of a successful palette expansion: every decoded pixel's three
bytes are a palette entry found at its index byte. -/
theorem palExpandLoop_ok_inv (pal : List (Nat × Nat × Nat)) (idxs : List Nat)
    (ps : Nat) (hps : 3 ≤ ps) : ∀ (n pix : Nat) (out out' : List Nat),
    palExpandLoop pal idxs ps pix n out = .ok out' →
    ∀ j, pix ≤ j → j < pix + n →
      ∃ c, pal[idxs.getD j 0]? = some c ∧
        out'.getD (j * ps) 0 = c.1 ∧ out'.getD (j * ps + 1) 0 = c.2.1 ∧
        out'.getD (j * ps + 2) 0 = c.2.2 := by
  intro n
  induction n with
  | zero =>
    intro pix out out' h j hj1 hj2
    omega
  | succ n ih =>
    intro pix out out' h j hj1 hj2
    unfold palExpandLoop at h
    simp only [DRes.monad_bind_eq, DRes.bind_eq_ok] at h
    obtain ⟨idx, hidx, h⟩ := h
    obtain ⟨hpix, rfl⟩ := getB_ok_inv hidx
    cases hq : pal[idxs.getD pix 0]? with
    | none => rw [hq] at h; simp at h
    | some c =>
      rw [hq] at h
      simp only [DRes.monad_bind_eq, DRes.bind_eq_ok] at h
      obtain ⟨out1, h1, ⟨out2, h2, ⟨out3, h3, h⟩⟩⟩ := h
      rcases Nat.eq_or_lt_of_le hj1 with rfl | hlt
      · obtain ⟨b1, e1⟩ := (setB_ok_iff _ _ _ _).mp h1
        obtain ⟨b2, e2⟩ := (setB_ok_iff _ _ _ _).mp h2
        obtain ⟨b3, e3⟩ := (setB_ok_iff _ _ _ _).mp h3
        have hpres := palExpandLoop_preserves pal idxs ps n (pix + 1) out3 out' h
        have hstep : pix * ps + 3 ≤ (pix + 1) * ps := by
          calc pix * ps + 3 ≤ pix * ps + ps := by omega
            _ = (pix + 1) * ps := by ring
        refine ⟨c, hq, ?_, ?_, ?_⟩
        · rw [hpres _ (by omega), e3, getD_set_ne _ _ _ _ (by omega), e2,
            getD_set_ne _ _ _ _ (by omega), e1, getD_set_self _ _ _ b1]
        · rw [hpres _ (by omega), e3, getD_set_ne _ _ _ _ (by omega), e2,
            getD_set_self _ _ _ b2]
        · rw [hpres _ (by omega), e3, getD_set_self _ _ _ b3]
      · exact ih (pix + 1) out3 out' h j hlt (by omega)

/-- A remaining out-of-range index makes the expansion fail with
`BadPaletteIndex` (never with a panic: all writes before the offending pixel
are in bounds). -/
theorem palExpandLoop_err_of_bad (pal : List (Nat × Nat × Nat))
    (idxs : List Nat) (ps : Nat) (hps : 3 ≤ ps) : ∀ (n pix : Nat) (out : List Nat),
    out.length = ps * idxs.length → pix + n = idxs.length →
    (∃ j, pix ≤ j ∧ j < idxs.length ∧ pal.length ≤ idxs.getD j 0) →
    ∃ ix, pal.length ≤ ix ∧
      palExpandLoop pal idxs ps pix n out = .err (.badPaletteIndex pal.length ix) := by
  intro n
  induction n with
  | zero =>
    intro pix out hlen hrange hbad
    obtain ⟨j, hj1, hj2, _⟩ := hbad
    omega
  | succ n ih =>
    intro pix out hlen hrange hbad
    have hpix : pix < idxs.length := by omega
    by_cases hgood : idxs.getD pix 0 < pal.length
    · have hb : pix * ps + 2 < out.length := by
        rw [hlen]
        have hmul : (pix + 1) * ps ≤ idxs.length * ps :=
          Nat.mul_le_mul_right ps (by omega)
        calc pix * ps + 2 < pix * ps + ps := by omega
          _ = (pix + 1) * ps := by ring
          _ ≤ idxs.length * ps := hmul
          _ = ps * idxs.length := Nat.mul_comm _ _
      obtain ⟨out3, hw, hwlen, _, _, _, _⟩ :=
        palExpand_writes hps (pal.getD (idxs.getD pix 0) (0, 0, 0)) hb
      obtain ⟨j, hj1, hj2, hjbad⟩ := hbad
      have hjne : pix < j := by
        rcases Nat.eq_or_lt_of_le hj1 with rfl | h
        · omega
        · exact h
      obtain ⟨ix, hix, hrec⟩ := ih (pix + 1) out3 (by rw [hwlen, hlen])
        (by omega) ⟨j, by omega, hj2, hjbad⟩
      refine ⟨ix, hix, ?_⟩
      unfold palExpandLoop
      simp only [DRes.monad_bind_eq, DRes.bind_eq_ok, DRes.bind_eq_err]
      refine Or.inr ⟨idxs.getD pix 0, getB_of_lt hpix, ?_⟩
      rw [getElem?_of_lt_pal hgood]
      simp only [DRes.monad_bind_eq, DRes.bind_eq_ok, DRes.bind_eq_err] at hw ⊢
      obtain ⟨o1, e1, o2, e2, e3⟩ := hw
      exact Or.inr ⟨o1, e1, Or.inr ⟨o2, e2, Or.inr ⟨out3, e3, hrec⟩⟩⟩
    · refine ⟨idxs.getD pix 0, by omega, ?_⟩
      unfold palExpandLoop
      simp only [DRes.monad_bind_eq, DRes.bind_eq_err]
      refine Or.inr ⟨idxs.getD pix 0, getB_of_lt hpix, ?_⟩
      rw [getElem?_none_of_le (by omega)]

/-- In the palette case `unpack_2` is the expansion loop applied to exactly
the first `width * height` inflated bytes. -/
theorem unpack_2_palette_eq (w h : Nat) (pal : List (Nat × Nat × Nat))
    (s : List Nat) (hs : w * h ≤ s.length) :
    unpack_2 ⟨w, h, 8, pal⟩ s =
      palExpandLoop pal (s.take (w * h)) 3 0 (w * h)
        (List.replicate (3 * w * h) 0) := by
  simp only [unpack_2, readExact]
  norm_num
  rw [if_pos hs]
  rfl

/-- C2 (confirmed): the four parts of the palette-case contract.
First, the result depends only on the first `width * height` bytes of the
inflated stream (exactly that many index bytes are consumed).  Second, when
every consumed index is within the palette, decoding succeeds, the output has
`3 * width * height` bytes, and pixel `p` holds the palette entry named by
index byte `p`.  Third, decoding fails with `BadPaletteIndex` — carrying the
palette size and an offending index — exactly when some consumed index
reaches the palette length.  Fourth, at the top level an accepted source
whose depth is neither 0 nor 1 records `final_bpp = 24`. -/
theorem c2_palette_expansion :
    (∀ (w h : Nat) (pal : List (Nat × Nat × Nat)) (s s' : List Nat),
      w * h ≤ s.length → w * h ≤ s'.length →
      s.take (w * h) = s'.take (w * h) →
      unpack_2 ⟨w, h, 8, pal⟩ s = unpack_2 ⟨w, h, 8, pal⟩ s') ∧
    (∀ (w h : Nat) (pal : List (Nat × Nat × Nat)) (s : List Nat),
      w * h ≤ s.length →
      (∀ i ∈ s.take (w * h), i < pal.length) →
      ∃ out, unpack_2 ⟨w, h, 8, pal⟩ s = .ok out ∧
        out.length = 3 * w * h ∧
        ∀ p, p < w * h →
          out.getD (p * 3) 0 = (pal.getD ((s.take (w * h)).getD p 0) (0, 0, 0)).1 ∧
          out.getD (p * 3 + 1) 0 = (pal.getD ((s.take (w * h)).getD p 0) (0, 0, 0)).2.1 ∧
          out.getD (p * 3 + 2) 0 = (pal.getD ((s.take (w * h)).getD p 0) (0, 0, 0)).2.2) ∧
    (∀ (w h : Nat) (pal : List (Nat × Nat × Nat)) (s : List Nat),
      w * h ≤ s.length →
      ((∃ i ∈ s.take (w * h), pal.length ≤ i) ↔
        ∃ ix, pal.length ≤ ix ∧
          unpack_2 ⟨w, h, 8, pal⟩ s = .err (.badPaletteIndex pal.length ix))) ∧
    (∀ (inflate : List Nat → Option (List Nat)) (input : List Nat) (f : CrxFile)
      (hdr : CrxHeader) (rest : List Nat),
      crxRead inflate input = .ok f →
      crxHeaderRead (input.drop 4) = .ok (hdr, rest) →
      hdr.depth ≠ 0 → hdr.depth ≠ 1 → f.bpp = 24) := by
  have htakelen : ∀ (w h : Nat) (s : List Nat), w * h ≤ s.length →
      (s.take (w * h)).length = w * h := by
    intro w h s hs
    simp [hs]
  refine ⟨?_, ?_, ?_, ?_⟩
  · intro w h pal s s' hs hs' htake
    rw [unpack_2_palette_eq w h pal s hs, unpack_2_palette_eq w h pal s' hs',
      htake]
  · intro w h pal s hs hgood
    have hg : ∀ j, 0 ≤ j → j < (s.take (w * h)).length →
        (s.take (w * h)).getD j 0 < pal.length := by
      intro j _ hj
      refine hgood _ ?_
      rw [List.getD_eq_getElem?_getD, List.getElem?_eq_getElem hj]
      exact List.getElem_mem hj
    obtain ⟨out', hok, hlen, hvals⟩ :=
      palExpandLoop_ok_of_lt pal (s.take (w * h)) 3 (by omega) (w * h) 0
        (List.replicate (3 * w * h) 0)
        (by rw [List.length_replicate, htakelen w h s hs]; ring)
        (by rw [htakelen w h s hs]; omega) hg
    refine ⟨out', by rw [unpack_2_palette_eq w h pal s hs]; exact hok, ?_, ?_⟩
    · rw [hlen, List.length_replicate]
    · intro p hp
      exact hvals p (by omega) (by rw [htakelen w h s hs]; omega)
  · intro w h pal s hs
    constructor
    · intro hbad
      obtain ⟨i, hmem, hle⟩ := hbad
      obtain ⟨j, hj, hji⟩ := List.mem_iff_getElem.mp hmem
      obtain ⟨ix, hix, herr⟩ :=
        palExpandLoop_err_of_bad pal (s.take (w * h)) 3 (by omega) (w * h) 0
          (List.replicate (3 * w * h) 0)
          (by rw [List.length_replicate, htakelen w h s hs]; ring)
          (by rw [htakelen w h s hs]; omega)
          ⟨j, by omega, by rw [htakelen w h s hs]
                           rw [htakelen w h s hs] at hj
                           omega, by
            rw [List.getD_eq_getElem?_getD, List.getElem?_eq_getElem hj, hji]
            exact hle⟩
      exact ⟨ix, hix, by rw [unpack_2_palette_eq w h pal s hs]; exact herr⟩
    · intro herr
      by_contra hgood
      push_neg at hgood
      obtain ⟨ix, _, herr⟩ := herr
      obtain ⟨out', hok, _, _⟩ :=
        palExpandLoop_ok_of_lt pal (s.take (w * h)) 3 (by omega) (w * h) 0
          (List.replicate (3 * w * h) 0)
          (by rw [List.length_replicate, htakelen w h s hs]; ring)
          (by rw [htakelen w h s hs]; omega)
          (by
            intro j _ hj
            refine hgood _ ?_
            rw [List.getD_eq_getElem?_getD, List.getElem?_eq_getElem hj]
            exact List.getElem_mem hj)
      rw [unpack_2_palette_eq w h pal s hs] at herr
      rw [hok] at herr
      cases herr
  · intro inflate input f hdr rest hread hhdr hd0 hd1
    obtain ⟨hdr', rest', hhdr', _, _, hbpp, _⟩ := crxRead_ok_facts hread
    rw [hhdr] at hhdr'
    injection hhdr' with hpair
    injection hpair with hh1 hh2
    rw [hbpp, if_neg (hh1 ▸ hd1)]

/-- C2 witness: the four conjuncts evaluated on concrete palettized inputs. -/
theorem c2_witness :
    (unpack_2 ⟨1, 1, 8, [(1, 2, 3)]⟩ [0, 9] = unpack_2 ⟨1, 1, 8, [(1, 2, 3)]⟩ [0]) ∧
    (∃ out, unpack_2 ⟨2, 1, 8, [(1, 2, 3), (9, 8, 7)]⟩ [1, 0] = .ok out ∧
      out.length = 3 * 2 * 1 ∧
      ∀ p, p < 2 * 1 →
        out.getD (p * 3) 0 =
          (List.getD [(1, 2, 3), (9, 8, 7)]
            ((List.take (2 * 1) [1, 0]).getD p 0) (0, 0, 0)).1 ∧
        out.getD (p * 3 + 1) 0 =
          (List.getD [(1, 2, 3), (9, 8, 7)]
            ((List.take (2 * 1) [1, 0]).getD p 0) (0, 0, 0)).2.1 ∧
        out.getD (p * 3 + 2) 0 =
          (List.getD [(1, 2, 3), (9, 8, 7)]
            ((List.take (2 * 1) [1, 0]).getD p 0) (0, 0, 0)).2.2) ∧
    ((∃ i ∈ List.take (1 * 1) [5],
        List.length ([] : List (Nat × Nat × Nat)) ≤ i) ↔
      ∃ ix, List.length ([] : List (Nat × Nat × Nat)) ≤ ix ∧
        unpack_2 ⟨1, 1, 8, []⟩ [5] =
          .err (.badPaletteIndex (List.length ([] : List (Nat × Nat × Nat))) ix)) ∧
    ({ inner_x := 0, inner_y := 0, width := 1, height := 1, bpp := 24,
       clips := [], raw_image_buffer := [10, 20, 30] } : CrxFile).bpp = 24 :=
  ⟨c2_palette_expansion.1 1 1 [(1, 2, 3)] [0, 9] [0] (by decide) (by decide)
      (by decide),
   c2_palette_expansion.2.1 2 1 [(1, 2, 3), (9, 8, 7)] [1, 0] (by decide)
      (by decide),
   c2_palette_expansion.2.2.1 1 1 [] [5] (by decide),
   c2_palette_expansion.2.2.2 (fun l => some l)
      [0x43, 0x52, 0x58, 0x47,
       0, 0, 0, 0, 1, 0, 1, 0, 2, 0, 0, 0, 2, 0, 0, 0,
       10, 20, 30, 40, 50, 60, 0]
      { inner_x := 0, inner_y := 0, width := 1, height := 1, bpp := 24,
        clips := [], raw_image_buffer := [10, 20, 30] }
      { inner_x := 0, inner_y := 0, width := 1, height := 1, version := 2,
        flag := 0, depth := 2, mode := 0 }
      [10, 20, 30, 40, 50, 60, 0]
      (by decide) (by decide) (by decide) (by decide)⟩

/-! Palette-parsing lemmas for claim C7. -/

theorem getD_append_left {α : Type} (l l' : List α) (k : Nat) (d : α)
    (h : k < l.length) : (l ++ l').getD k d = l.getD k d := by
  simp [List.getD_eq_getElem?_getD, List.getElem?_append_left h]

theorem getD_append_self {α : Type} (l : List α) (e : α) (d : α) :
    (l ++ [e]).getD l.length d = e := by
  simp [List.getD_eq_getElem?_getD, List.getElem?_append_right (Nat.le_refl _)]

theorem getD_drop (l : List Nat) (n m : Nat) :
    (l.drop n).getD m 0 = l.getD (n + m) 0 := by
  simp [List.getD_eq_getElem?_getD, List.getElem?_drop]

/-- Inversion of the palette-entry loop: entry `k` is built from the `cs`
bytes at stream offset `cs * k`, with the magenta fix-up applied and all
other entries stored unchanged. -/
theorem palReadLoop_ok_inv (cs : Nat) (hcs : cs = 3 ∨ cs = 4) :
    ∀ (n : Nat) (s : List Nat) (acc pal : List (Nat × Nat × Nat))
      (rest : List Nat),
    palReadLoop cs n s acc = .ok (pal, rest) →
    pal.length = acc.length + n ∧
    (∀ k, k < acc.length → pal.getD k (0, 0, 0) = acc.getD k (0, 0, 0)) ∧
    (∀ k, k < n →
      pal.getD (acc.length + k) (0, 0, 0) =
        (if s.getD (cs * k + 2) 0 = 0xFF ∧ s.getD (cs * k + 1) 0 = 0 ∧
            s.getD (cs * k) 0 = 0xFF
         then (s.getD (cs * k) 0, 0xFF, s.getD (cs * k + 2) 0)
         else (s.getD (cs * k) 0, s.getD (cs * k + 1) 0,
           s.getD (cs * k + 2) 0))) := by
  intro n
  induction n with
  | zero =>
    intro s acc pal rest h
    simp only [palReadLoop, DRes.ok.injEq, Prod.mk.injEq] at h
    obtain ⟨h1, _⟩ := h
    subst h1
    exact ⟨by omega, fun k _ => rfl, fun k hk => by omega⟩
  | succ n ih =>
    intro s acc pal rest h
    unfold palReadLoop at h
    simp only [DRes.monad_bind_eq, DRes.bind_eq_ok] at h
    obtain ⟨⟨r, s1⟩, hr, ⟨⟨g, s2⟩, hg, ⟨⟨b, s3⟩, hb, ⟨s4, h4, h⟩⟩⟩⟩ := h
    dsimp only at hg hb h4 h
    have hs1 := readU8_ok hr
    subst hs1
    have hs2 := readU8_ok hg
    subst hs2
    have hs3 := readU8_ok hb
    subst hs3
    obtain ⟨ihlen, ihpre, ihent⟩ := ih s4 (acc ++ [(r,
      if b = 0xFF ∧ g = 0 ∧ r = 0xFF then 0xFF else g, b)]) pal rest h
    have hlen1 : (acc ++ [(r,
        if b = 0xFF ∧ g = 0 ∧ r = 0xFF then 0xFF else g, b)]).length =
        acc.length + 1 := by simp
    refine ⟨?_, ?_, ?_⟩
    · rw [ihlen, hlen1]
      omega
    · intro k hk
      rw [ihpre k (by rw [hlen1]; omega), getD_append_left _ _ _ _ hk]
    · rcases hcs with rfl | rfl
      case inl =>
        rw [if_neg (by decide)] at h4
        simp only [DRes.ok.injEq] at h4
        subst h4
        intro k hk
        match k with
        | 0 =>
          have hpre := ihpre acc.length (by rw [hlen1]; omega)
          rw [Nat.add_zero, hpre, getD_append_self]
          by_cases hfix : b = 0xFF ∧ g = 0 ∧ r = 0xFF
          · rw [if_pos hfix, if_pos (by simpa using hfix)]
            rfl
          · rw [if_neg hfix, if_neg (by simpa using hfix)]
            rfl
        | k' + 1 =>
          have hidx : acc.length + (k' + 1) =
              (acc ++ [(r, if b = 0xFF ∧ g = 0 ∧ r = 0xFF then 0xFF else g,
                b)]).length + k' := by rw [hlen1]; omega
          rw [hidx, ihent k' (by omega)]
          have hbyte : ∀ i : Nat, s3.getD (3 * k' + i) 0 =
              (r :: g :: b :: s3).getD (3 * (k' + 1) + i) 0 := by
            intro i
            rw [show 3 * (k' + 1) + i = 3 + (3 * k' + i) by ring]
            exact getD_drop (r :: g :: b :: s3) 3 (3 * k' + i)
          have hb0 : s3.getD (3 * k') 0 =
              (r :: g :: b :: s3).getD (3 * (k' + 1)) 0 := by
            rw [show 3 * (k' + 1) = 3 + 3 * k' by ring]
            exact getD_drop (r :: g :: b :: s3) 3 (3 * k')
          rw [hbyte 1, hbyte 2, hb0]
      case inr =>
        rw [if_pos rfl] at h4
        simp only [DRes.monad_bind_eq, DRes.bind_eq_ok] at h4
        obtain ⟨⟨x, s5⟩, hx, h4⟩ := h4
        dsimp only at h4
        simp only [DRes.ok.injEq] at h4
        have hs3 := readU8_ok hx
        subst hs3
        subst h4
        intro k hk
        match k with
        | 0 =>
          have hpre := ihpre acc.length (by rw [hlen1]; omega)
          rw [Nat.add_zero, hpre, getD_append_self]
          by_cases hfix : b = 0xFF ∧ g = 0 ∧ r = 0xFF
          · rw [if_pos hfix, if_pos (by simpa using hfix)]
            rfl
          · rw [if_neg hfix, if_neg (by simpa using hfix)]
            rfl
        | k' + 1 =>
          have hidx : acc.length + (k' + 1) =
              (acc ++ [(r, if b = 0xFF ∧ g = 0 ∧ r = 0xFF then 0xFF else g,
                b)]).length + k' := by rw [hlen1]; omega
          rw [hidx, ihent k' (by omega)]
          have hbyte : ∀ i : Nat, s5.getD (4 * k' + i) 0 =
              (r :: g :: b :: x :: s5).getD (4 * (k' + 1) + i) 0 := by
            intro i
            rw [show 4 * (k' + 1) + i = 4 + (4 * k' + i) by ring]
            exact getD_drop (r :: g :: b :: x :: s5) 4 (4 * k' + i)
          have hb0 : s5.getD (4 * k') 0 =
              (r :: g :: b :: x :: s5).getD (4 * (k' + 1)) 0 := by
            rw [show 4 * (k' + 1) = 4 + 4 * k' by ring]
            exact getD_drop (r :: g :: b :: x :: s5) 4 (4 * k')
          rw [hbyte 1, hbyte 2, hb0]

/-- C7 (confirmed): first, every parsed palette entry `k` equals the raw
`(r, g, b)` triple found at stream offset `cs * k`, except that the exact
triple `(0xFF, 0x00, 0xFF)` is stored with `g` forced to `0xFF` — so a raw
magenta entry is stored as `(0xFF, 0xFF, 0xFF)` and any other entry is
stored unchanged; second, in 8-bpp expansion every decoded pixel's three
bytes equal the stored palette entry selected by its index byte, so a pixel
referencing a raw-magenta entry is emitted as `(0xFF, 0xFF, 0xFF)`. -/
theorem c7_palette_fixup :
    (∀ (depth : Int) (s : List Nat) (pal : List (Nat × Nat × Nat))
      (rest : List Nat),
      read_palette depth s = .ok (pal, rest) →
      ∀ k, k < pal.length →
        pal.getD k (0, 0, 0) =
          (let cs : Nat := if depth = 0x102 then 4 else 3
           if s.getD (cs * k + 2) 0 = 0xFF ∧ s.getD (cs * k + 1) 0 = 0 ∧
              s.getD (cs * k) 0 = 0xFF
           then (s.getD (cs * k) 0, 0xFF, s.getD (cs * k + 2) 0)
           else (s.getD (cs * k) 0, s.getD (cs * k + 1) 0,
             s.getD (cs * k + 2) 0))) ∧
    (∀ (w h : Nat) (pal : List (Nat × Nat × Nat)) (s out : List Nat) (p i : Nat),
      unpack_2 ⟨w, h, 8, pal⟩ s = .ok out → w * h ≤ s.length → p < w * h →
      (s.take (w * h)).getD p 0 = i →
      ∃ c, pal[i]? = some c ∧
        out.getD (p * 3) 0 = c.1 ∧ out.getD (p * 3 + 1) 0 = c.2.1 ∧
        out.getD (p * 3 + 2) 0 = c.2.2) := by
  constructor
  · intro depth s pal rest h k hk
    unfold read_palette at h
    have hcs : (if depth = 0x102 then 4 else 3) = (3 : Nat) ∨
        (if depth = 0x102 then 4 else 3) = (4 : Nat) := by
      by_cases hd : depth = 0x102 <;> simp [hd]
    obtain ⟨hlen, _, hent⟩ := palReadLoop_ok_inv _ hcs _ s [] pal rest h
    simp only [List.length_nil, Nat.zero_add] at hlen hent
    exact hent k (by omega)
  · intro w h pal s out p i hok hs hp hi
    rw [unpack_2_palette_eq w h pal s hs] at hok
    have := palExpandLoop_ok_inv pal (s.take (w * h)) 3 (by omega) (w * h) 0
      _ _ hok p (by omega) (by omega)
    rw [hi] at this
    exact this

/-- C7 witness: a depth-4 palette whose first raw entry is magenta, and a
one-pixel image referencing the fixed-up entry. -/
theorem c7_witness :
    ((List.getD [((0xFF : Nat), (0xFF : Nat), (0xFF : Nat)), (7, 8, 9),
        (1, 2, 3), (4, 5, 6)] 0 (0, 0, 0)) =
      (let cs : Nat := if (4 : Int) = 0x102 then 4 else 3
       if List.getD [0xFF, 0, 0xFF, 7, 8, 9, 1, 2, 3, 4, 5, 6] (cs * 0 + 2) 0 = 0xFF ∧
          List.getD [0xFF, 0, 0xFF, 7, 8, 9, 1, 2, 3, 4, 5, 6] (cs * 0 + 1) 0 = 0 ∧
          List.getD [0xFF, 0, 0xFF, 7, 8, 9, 1, 2, 3, 4, 5, 6] (cs * 0) 0 = 0xFF
       then (List.getD [0xFF, 0, 0xFF, 7, 8, 9, 1, 2, 3, 4, 5, 6] (cs * 0) 0, 0xFF,
         List.getD [0xFF, 0, 0xFF, 7, 8, 9, 1, 2, 3, 4, 5, 6] (cs * 0 + 2) 0)
       else (List.getD [0xFF, 0, 0xFF, 7, 8, 9, 1, 2, 3, 4, 5, 6] (cs * 0) 0,
         List.getD [0xFF, 0, 0xFF, 7, 8, 9, 1, 2, 3, 4, 5, 6] (cs * 0 + 1) 0,
         List.getD [0xFF, 0, 0xFF, 7, 8, 9, 1, 2, 3, 4, 5, 6] (cs * 0 + 2) 0))) ∧
    (∃ c, [((0xFF : Nat), (0xFF : Nat), (0xFF : Nat))][(0 : Nat)]? = some c ∧
      List.getD [0xFF, 0xFF, 0xFF] (0 * 3) 0 = c.1 ∧
      List.getD [0xFF, 0xFF, 0xFF] (0 * 3 + 1) 0 = c.2.1 ∧
      List.getD [0xFF, 0xFF, 0xFF] (0 * 3 + 2) 0 = c.2.2) :=
  ⟨c7_palette_fixup.1 4 [0xFF, 0, 0xFF, 7, 8, 9, 1, 2, 3, 4, 5, 6]
      [(0xFF, 0xFF, 0xFF), (7, 8, 9), (1, 2, 3), (4, 5, 6)] [] (by decide)
      0 (by decide),
   c7_palette_fixup.2 1 1 [(0xFF, 0xFF, 0xFF)] [0] [0xFF, 0xFF, 0xFF] 0 0
      (by decide) (by decide) (by decide) (by decide)⟩

/-! Post-processing lemmas for claim C3. -/

/-- Functional specification of the alpha pass: pixel `q` turns from
`[a, b, g, r]` into `[b, g, r, a XOR flip]`, everything before the starting
pixel is untouched. -/
theorem alphaLoop_spec (flip : Nat) : ∀ (n pix : Nat) (buf : List Nat),
    buf.length = 4 * (pix + n) →
    ∃ buf', alphaLoop flip pix n buf = .ok buf' ∧ buf'.length = buf.length ∧
      (∀ j, j < 4 * pix → buf'.getD j 0 = buf.getD j 0) ∧
      (∀ q, pix ≤ q → q < pix + n →
        buf'.getD (4 * q) 0 = buf.getD (4 * q + 1) 0 ∧
        buf'.getD (4 * q + 1) 0 = buf.getD (4 * q + 2) 0 ∧
        buf'.getD (4 * q + 2) 0 = buf.getD (4 * q + 3) 0 ∧
        buf'.getD (4 * q + 3) 0 = (buf.getD (4 * q) 0) ^^^ flip) := by
  intro n
  induction n with
  | zero =>
    intro pix buf hlen
    exact ⟨buf, rfl, rfl, fun j _ => rfl, fun q hq1 hq2 => by omega⟩
  | succ n ih =>
    intro pix buf hlen
    have hb0 : 4 * pix < buf.length := by omega
    have hb1 : 4 * pix + 1 < buf.length := by omega
    have hb2 : 4 * pix + 2 < buf.length := by omega
    have hb3 : 4 * pix + 3 < buf.length := by omega
    set a := buf.getD (4 * pix) 0 with ha
    set b := buf.getD (4 * pix + 1) 0 with hbv
    set g := buf.getD (4 * pix + 2) 0 with hg
    set r := buf.getD (4 * pix + 3) 0 with hr
    set buf3 : List Nat := (((buf.set (4 * pix) b).set (4 * pix + 1) g).set
      (4 * pix + 2) r).set (4 * pix + 3) (a ^^^ flip) with hbuf3
    have hlen3 : buf3.length = buf.length := by simp [hbuf3]
    have hoth : ∀ k, k ≠ 4 * pix → k ≠ 4 * pix + 1 → k ≠ 4 * pix + 2 →
        k ≠ 4 * pix + 3 → buf3.getD k 0 = buf.getD k 0 := by
      intro k h0 h1 h2 h3
      rw [hbuf3, getD_set_ne _ _ _ _ (Ne.symm h3), getD_set_ne _ _ _ _ (Ne.symm h2),
        getD_set_ne _ _ _ _ (Ne.symm h1), getD_set_ne _ _ _ _ (Ne.symm h0)]
    have hv0 : buf3.getD (4 * pix) 0 = b := by
      rw [hbuf3, getD_set_ne _ _ _ _ (by omega), getD_set_ne _ _ _ _ (by omega),
        getD_set_ne _ _ _ _ (by omega), getD_set_self _ _ _ hb0]
    have hv1 : buf3.getD (4 * pix + 1) 0 = g := by
      rw [hbuf3, getD_set_ne _ _ _ _ (by omega), getD_set_ne _ _ _ _ (by omega),
        getD_set_self _ _ _ (by simpa using hb1)]
    have hv2 : buf3.getD (4 * pix + 2) 0 = r := by
      rw [hbuf3, getD_set_ne _ _ _ _ (by omega),
        getD_set_self _ _ _ (by simpa using hb2)]
    have hv3 : buf3.getD (4 * pix + 3) 0 = a ^^^ flip := by
      rw [hbuf3, getD_set_self _ _ _ (by simpa using hb3)]
    obtain ⟨buf', hrec, hlen', hpre, hvals⟩ := ih (pix + 1) buf3
      (by rw [hlen3, hlen]; ring)
    refine ⟨buf', ?_, by rw [hlen', hlen3], ?_, ?_⟩
    · unfold alphaLoop
      simp only [DRes.monad_bind_eq, DRes.bind_eq_ok]
      refine ⟨a, getB_of_lt hb0, b, getB_of_lt hb1, g, getB_of_lt hb2,
        r, getB_of_lt hb3, ?_⟩
      refine ⟨buf.set (4 * pix) b, (setB_ok_iff _ _ _ _).mpr ⟨hb0, rfl⟩, ?_⟩
      refine ⟨(buf.set (4 * pix) b).set (4 * pix + 1) g,
        (setB_ok_iff _ _ _ _).mpr ⟨by simpa using hb1, rfl⟩, ?_⟩
      refine ⟨((buf.set (4 * pix) b).set (4 * pix + 1) g).set (4 * pix + 2) r,
        (setB_ok_iff _ _ _ _).mpr ⟨by simpa using hb2, rfl⟩, ?_⟩
      exact ⟨buf3, (setB_ok_iff _ _ _ _).mpr ⟨by simpa using hb3, hbuf3⟩, hrec⟩
    · intro j hj
      rw [hpre j (by omega), hoth j (by omega) (by omega) (by omega) (by omega)]
    · intro q hq1 hq2
      rcases Nat.eq_or_lt_of_le hq1 with rfl | hlt
      · have h0 := hpre (4 * pix) (by omega)
        have h1 := hpre (4 * pix + 1) (by omega)
        have h2 := hpre (4 * pix + 2) (by omega)
        have h3 := hpre (4 * pix + 3) (by omega)
        exact ⟨by rw [h0, hv0], by rw [h1, hv1], by rw [h2, hv2],
          by rw [h3, hv3]⟩
      · obtain ⟨e0, e1, e2, e3⟩ := hvals q hlt (by omega)
        have ho0 := hoth (4 * q) (by omega) (by omega) (by omega) (by omega)
        have ho1 := hoth (4 * q + 1) (by omega) (by omega) (by omega) (by omega)
        have ho2 := hoth (4 * q + 2) (by omega) (by omega) (by omega) (by omega)
        have ho3 := hoth (4 * q + 3) (by omega) (by omega) (by omega) (by omega)
        exact ⟨by rw [e0, ho1], by rw [e1, ho2], by rw [e2, ho3],
          by rw [e3, ho0]⟩

/-- Functional specification of the component-swap pass: bytes 0 and 2 of
every pixel chunk are exchanged, all other bytes are untouched. -/
theorem swapLoop_spec (ps : Nat) (hps : 2 < ps) : ∀ (n pix : Nat) (buf : List Nat),
    buf.length = ps * (pix + n) →
    ∃ buf', swapLoop ps pix n buf = .ok buf' ∧ buf'.length = buf.length ∧
      (∀ j, j < pix * ps → buf'.getD j 0 = buf.getD j 0) ∧
      (∀ q, pix ≤ q → q < pix + n →
        buf'.getD (q * ps) 0 = buf.getD (q * ps + 2) 0 ∧
        buf'.getD (q * ps + 2) 0 = buf.getD (q * ps) 0 ∧
        (∀ k, k < ps → k ≠ 0 → k ≠ 2 →
          buf'.getD (q * ps + k) 0 = buf.getD (q * ps + k) 0)) := by
  intro n
  induction n with
  | zero =>
    intro pix buf hlen
    exact ⟨buf, rfl, rfl, fun j _ => rfl, fun q hq1 hq2 => by omega⟩
  | succ n ih =>
    intro pix buf hlen
    have hmul : (pix + 1) * ps ≤ (pix + (n + 1)) * ps :=
      Nat.mul_le_mul_right ps (by omega)
    have hlen' : buf.length = (pix + (n + 1)) * ps := by
      rw [hlen]; ring
    have hb0 : pix * ps < buf.length := by
      have : pix * ps + ps ≤ (pix + 1) * ps := by
        have : (pix + 1) * ps = pix * ps + ps := by ring
        omega
      omega
    have hb2 : pix * ps + 2 < buf.length := by
      have he : (pix + 1) * ps = pix * ps + ps := by ring
      omega
    set x := buf.getD (pix * ps) 0 with hx
    set z := buf.getD (pix * ps + 2) 0 with hz
    set buf2 : List Nat := (buf.set (pix * ps) z).set (pix * ps + 2) x with hbuf2
    have hlen2 : buf2.length = buf.length := by simp [hbuf2]
    have hoth : ∀ k, k ≠ pix * ps → k ≠ pix * ps + 2 →
        buf2.getD k 0 = buf.getD k 0 := by
      intro k h0 h2
      rw [hbuf2, getD_set_ne _ _ _ _ (Ne.symm h2), getD_set_ne _ _ _ _ (Ne.symm h0)]
    have hv0 : buf2.getD (pix * ps) 0 = z := by
      rw [hbuf2, getD_set_ne _ _ _ _ (by omega), getD_set_self _ _ _ hb0]
    have hv2 : buf2.getD (pix * ps + 2) 0 = x := by
      rw [hbuf2, getD_set_self _ _ _ (by simpa using hb2)]
    obtain ⟨buf', hrec, hlenr, hpre, hvals⟩ := ih (pix + 1) buf2
      (by rw [hlen2, hlen]; ring)
    refine ⟨buf', ?_, by rw [hlenr, hlen2], ?_, ?_⟩
    · unfold swapLoop
      simp only [DRes.monad_bind_eq, DRes.bind_eq_ok]
      refine ⟨x, getB_of_lt hb0, z, getB_of_lt hb2, ?_⟩
      refine ⟨buf.set (pix * ps) z, (setB_ok_iff _ _ _ _).mpr ⟨hb0, rfl⟩, ?_⟩
      exact ⟨buf2, (setB_ok_iff _ _ _ _).mpr ⟨by simpa using hb2, hbuf2⟩, hrec⟩
    · intro j hj
      have hstep : pix * ps ≤ (pix + 1) * ps := by
        have : (pix + 1) * ps = pix * ps + ps := by ring
        omega
      rw [hpre j (by omega), hoth j (by omega) (by omega)]
    · intro q hq1 hq2
      have he : (pix + 1) * ps = pix * ps + ps := by ring
      rcases Nat.eq_or_lt_of_le hq1 with rfl | hlt
      · have h0 := hpre (pix * ps) (by omega)
        have h2 := hpre (pix * ps + 2) (by omega)
        refine ⟨by rw [h0, hv0], by rw [h2, hv2], ?_⟩
        intro k hk hk0 hk2
        have hko := hpre (pix * ps + k) (by omega)
        rw [hko, hoth (pix * ps + k) (by omega) (by omega)]
      · have hqe : q * ps = q * ps := rfl
        have hge : (pix + 1) * ps ≤ q * ps := Nat.mul_le_mul_right ps (by omega)
        obtain ⟨e0, e2, eoth⟩ := hvals q hlt (by omega)
        have ho0 := hoth (q * ps) (by omega) (by omega)
        have ho2 := hoth (q * ps + 2) (by omega) (by omega)
        refine ⟨by rw [e0, ho2], by rw [e2, ho0], ?_⟩
        intro k hk hk0 hk2
        rw [eoth k hk hk0 hk2, hoth (q * ps + k) (by omega) (by omega)]

/-- C3 (confirmed): on a 32-bpp buffer whose pixels are laid out
`[A, B, G, R]`, the post-processing of `CrxFile::read` produces
`[R, G, B, A XOR (if mode = 2 then 0 else 0xFF)]` for every header mode
other than 1, and for mode 1 only the byte-0/byte-2 swap runs, leaving
`[G, B, A, R]`. -/
theorem c3_alpha_postprocess (m w h : Nat) (buf : List Nat)
    (hlen : buf.length = 4 * (w * h)) :
    ∃ buf', crxPostProcess 32 m w h buf = .ok buf' ∧ buf'.length = buf.length ∧
      ∀ p, p < w * h →
        (buf'.getD (4 * p) 0, buf'.getD (4 * p + 1) 0, buf'.getD (4 * p + 2) 0,
          buf'.getD (4 * p + 3) 0) =
        (if m = 1 then
          (buf.getD (4 * p + 2) 0, buf.getD (4 * p + 1) 0, buf.getD (4 * p) 0,
            buf.getD (4 * p + 3) 0)
        else
          (buf.getD (4 * p + 3) 0, buf.getD (4 * p + 2) 0, buf.getD (4 * p + 1) 0,
            (buf.getD (4 * p) 0) ^^^ (if m = 2 then 0 else 0xFF))) := by
  by_cases hm : m = 1
  · subst hm
    obtain ⟨buf', hswap, hlen', _, hvals⟩ := swapLoop_spec 4 (by decide)
      (h * w) 0 buf (by rw [hlen]; ring)
    refine ⟨buf', ?_, hlen', ?_⟩
    · unfold crxPostProcess
      rw [if_neg (by simp)]
      simp only [DRes.monad_bind_eq, DRes.bind_ok]
      rw [if_pos (by decide)]
      exact hswap
    · intro p hp
      have hc : 4 * p = p * 4 := Nat.mul_comm 4 p
      obtain ⟨e0, e2, eoth⟩ := hvals p (by omega)
        (by rw [Nat.zero_add, Nat.mul_comm h w]; exact hp)
      rw [if_pos rfl, hc]
      simp only [Prod.mk.injEq]
      exact ⟨e0, eoth 1 (by decide) (by decide) (by decide), e2,
        eoth 3 (by decide) (by decide) (by decide)⟩
  · obtain ⟨buf1, halpha, hlen1, _, havals⟩ :=
      alphaLoop_spec (if 2 = m then 0 else 0xFF) (h * w) 0 buf
        (by rw [hlen]; ring)
    obtain ⟨buf', hswap, hlen', _, hsvals⟩ := swapLoop_spec 4 (by decide)
      (h * w) 0 buf1 (by rw [hlen1, hlen]; ring)
    refine ⟨buf', ?_, by rw [hlen', hlen1], ?_⟩
    · unfold crxPostProcess
      rw [if_pos ⟨rfl, hm⟩]
      simp only [DRes.monad_bind_eq, DRes.bind_eq_ok]
      refine ⟨buf1, halpha, ?_⟩
      rw [if_pos (by decide)]
      exact hswap
    · intro p hp
      have hc : p * 4 = 4 * p := Nat.mul_comm p 4
      obtain ⟨s0, s2, soth⟩ := hsvals p (by omega)
        (by rw [Nat.zero_add, Nat.mul_comm h w]; exact hp)
      rw [hc] at s0 s2
      have s1 := soth 1 (by decide) (by decide) (by decide)
      have s3 := soth 3 (by decide) (by decide) (by decide)
      rw [hc] at s1 s3
      obtain ⟨a0, a1, a2, a3⟩ := havals p (by omega)
        (by rw [Nat.zero_add, Nat.mul_comm h w]; exact hp)
      have hfl : (if 2 = m then (0 : Nat) else 0xFF) =
          (if m = 2 then 0 else 0xFF) := by
        by_cases h2 : m = 2
        · rw [if_pos h2, if_pos h2.symm]
        · rw [if_neg h2, if_neg (fun hc2 => h2 hc2.symm)]
      rw [if_neg hm]
      simp only [Prod.mk.injEq]
      refine ⟨by rw [s0, a2], by rw [s1, a1], by rw [s2, a0],
        by rw [s3, a3, hfl]⟩

/-- C3 witness: one 32-bpp pixel `[0xAA, 0x11, 0x22, 0x33]` under mode 0. -/
theorem c3_witness :
    ∃ buf', crxPostProcess 32 0 1 1 [0xAA, 0x11, 0x22, 0x33] = .ok buf' ∧
      buf'.length = (List.length [0xAA, 0x11, 0x22, 0x33]) ∧
      ∀ p, p < 1 * 1 →
        (buf'.getD (4 * p) 0, buf'.getD (4 * p + 1) 0, buf'.getD (4 * p + 2) 0,
          buf'.getD (4 * p + 3) 0) =
        (if (0 : Nat) = 1 then
          (List.getD [0xAA, 0x11, 0x22, 0x33] (4 * p + 2) 0,
            List.getD [0xAA, 0x11, 0x22, 0x33] (4 * p + 1) 0,
            List.getD [0xAA, 0x11, 0x22, 0x33] (4 * p) 0,
            List.getD [0xAA, 0x11, 0x22, 0x33] (4 * p + 3) 0)
        else
          (List.getD [0xAA, 0x11, 0x22, 0x33] (4 * p + 3) 0,
            List.getD [0xAA, 0x11, 0x22, 0x33] (4 * p + 2) 0,
            List.getD [0xAA, 0x11, 0x22, 0x33] (4 * p + 1) 0,
            (List.getD [0xAA, 0x11, 0x22, 0x33] (4 * p) 0) ^^^
              (if (0 : Nat) = 2 then 0 else 0xFF))) :=
  c3_alpha_postprocess 0 1 1 [0xAA, 0x11, 0x22, 0x33] (by decide)

/-! Version-1 back-reference lemmas for claim C4. -/

/-- Running the back-reference copy loop over a window and output that agree
on the value `0xAB` at every position written so far (with `back = 1`, the
source cursor trails the write cursor by one) extends the run of `0xAB`
bytes until either `count` bytes are copied or the output fills. -/
theorem unpack1Copy_run (N : Nat) (hN : N + 1 ≤ 0x10000) :
    ∀ (k : Nat) (win : List Nat) (wp off : Nat) (out : List Nat) (dst : Nat),
    win.length = 0x10000 → out.length = N + 1 →
    1 ≤ dst → dst ≤ N + 1 →
    wp = dst % 0x10000 → off = dst - 1 →
    (∀ j, j < dst → out.getD j 0 = 0xAB) →
    (∀ j, j < dst → win.getD j 0 = 0xAB) →
    ∃ win' wp' out',
      unpack1Copy k win wp off out dst =
        (win', wp', out', min (dst + k) (N + 1)) ∧
      out'.length = N + 1 ∧
      ∀ j, j < min (dst + k) (N + 1) → out'.getD j 0 = 0xAB := by
  intro k
  induction k with
  | zero =>
    intro win wp off out dst hwin hout h1 hle hwp hoff hob hwb
    refine ⟨win, wp, out, ?_, hout, ?_⟩
    · rw [show min (dst + 0) (N + 1) = dst by omega]
      rfl
    · intro j hj
      exact hob j (by omega)
  | succ k ih =>
    intro win wp off out dst hwin hout h1 hle hwp hoff hob hwb
    rcases Nat.eq_or_lt_of_le hle with heq | hlt
    · refine ⟨win, wp, out, ?_, hout, ?_⟩
      · unfold unpack1Copy
        rw [if_pos (by omega)]
        rw [show min (dst + (k + 1)) (N + 1) = dst by omega]
      · intro j hj
        exact hob j (by omega)
    · have hdm : dst % 0x10000 = dst := Nat.mod_eq_of_lt (by omega)
      have hom : off % 0x10000 = off := Nat.mod_eq_of_lt (by omega)
      have hdat : win.getD (off % 0x10000) 0 = 0xAB := by
        rw [hom, hoff]
        exact hwb (dst - 1) (by omega)
      obtain ⟨win', wp', out', hrec, hlen', hvals⟩ :=
        ih (win.set wp (win.getD (off % 0x10000) 0)) ((wp + 1) % 0x10000)
          (off % 0x10000 + 1) (out.set dst (win.getD (off % 0x10000) 0))
          (dst + 1) (by simp [hwin]) (by simp [hout]) (by omega) (by omega)
          (by rw [hwp, hdm])
          (by rw [hom, hoff]; omega)
          (by
            intro j hj
            rcases Nat.lt_or_ge j dst with hj' | hj'
            · rw [hdat, getD_set_ne _ _ _ _ (by omega)]
              exact hob j hj'
            · have hjd : j = dst := by omega
              rw [hjd, hdat, getD_set_self _ _ _ (by omega)])
          (by
            intro j hj
            rcases Nat.lt_or_ge j dst with hj' | hj'
            · rw [hdat, getD_set_ne _ _ _ _ (by rw [hwp, hdm]; omega)]
              exact hwb j hj'
            · have hjd : j = dst := by omega
              rw [hjd, hdat, hwp, hdm, getD_set_self _ _ _ (by omega)])
      refine ⟨win', wp', out', ?_, hlen', ?_⟩
      · unfold unpack1Copy
        rw [if_neg (by omega), hrec]
        rw [show dst + 1 + k = dst + (k + 1) by omega]
      · intro j hj
        refine hvals j ?_
        rw [show dst + 1 + k = dst + (k + 1) by omega]
        exact hj

/-! Step lemmas for the version-1 loop, used by claim C4. -/

theorem unpack1Loop_step_lit (fuel : Nat) (s s1 : List Nat) (flag f1 dat : Nat)
    (win out : List Nat) (wp dst : Nat) (hdst : dst < out.length)
    (hre : unpack1Reload s (flag >>> 1) = .ok (f1, dat :: s1))
    (hbit : f1 &&& 1 ≠ 0) :
    unpack1Loop (fuel + 1) s flag win wp out dst =
      unpack1Loop fuel s1 f1 (win.set wp dat) ((wp + 1) % 0x10000)
        (out.set dst dat) (dst + 1) := by
  conv_lhs => rw [unpack1Loop]
  rw [if_pos hdst]
  dsimp only
  rw [hre]
  simp only [DRes.monad_bind_eq, DRes.bind_ok]
  rw [if_pos hbit]
  simp only [readU8, DRes.monad_bind_eq, DRes.bind_ok]

theorem unpack1Loop_step_ref (fuel : Nat) (s s1 s2 : List Nat) (flag f1 : Nat)
    (count offset : Nat) (win out : List Nat) (wp dst : Nat)
    (hdst : dst < out.length)
    (hre : unpack1Reload s (flag >>> 1) = .ok (f1, s1))
    (hbit : ¬ (f1 &&& 1 ≠ 0))
    (hctrl : unpack1Ctrl s1 = .ok (count, offset, s2)) :
    unpack1Loop (fuel + 1) s flag win wp out dst =
      (let r := unpack1Copy count win wp (wsub wp offset) out dst
       unpack1Loop fuel s2 f1 r.1 r.2.1 r.2.2.1 r.2.2.2) := by
  conv_lhs => rw [unpack1Loop]
  rw [if_pos hdst]
  dsimp only
  rw [hre]
  simp only [DRes.monad_bind_eq, DRes.bind_ok]
  rw [if_neg hbit]
  rw [hctrl]
  simp only [DRes.monad_bind_eq, DRes.bind_ok]

theorem reload1 (l : List Nat) :
    unpack1Reload (0x01 :: l) (0 >>> 1) = .ok (0x01 ||| 0xFF00, l) := by
  unfold unpack1Reload
  rw [if_pos (by simp)]
  simp [readU8]

theorem bit1 : (0x01 ||| 0xFF00 : Nat) &&& 1 ≠ 0 := by simp

theorem reload2 (l : List Nat) :
    unpack1Reload l ((0x01 ||| 0xFF00) >>> 1) =
      .ok ((0x01 ||| 0xFF00) >>> 1, l) := by
  unfold unpack1Reload
  rw [if_neg (by simp)]

theorem bit2 : ¬ ((0x01 ||| 0xFF00 : Nat) >>> 1 &&& 1 ≠ 0) := by simp

theorem ctrl7F (lo hi o1 o2 : Nat) (l : List Nat) :
    unpack1Ctrl (0x7F :: lo :: hi :: o1 :: o2 :: l) =
      .ok (2 + (lo + 256 * hi), o1 + 256 * o2, l) := by
  unfold unpack1Ctrl
  simp only [readU8, DRes.monad_bind_eq, DRes.bind_ok]
  rw [if_neg (by simp)]
  rw [if_neg (by
    rw [show (128 : Nat) = 2 ^ 7 by norm_num, Nat.and_two_pow]
    simp [Nat.testBit])]
  rw [if_pos trivial]
  simp only [readU16, readU8, DRes.monad_bind_eq, DRes.bind_ok]



/-- C4 (confirmed): a version-1 payload that stores one literal byte `0xAB`
(flag byte 0x01) and then back-references it with `count = N, back = 1`
(control byte 0x7F with little-endian `count - 2` and `back`) decodes to a
run of `N + 1` bytes `0xAB`: the copy reads from the window at
`(win_pos - back) mod 0x10000`, writes each byte to both the window and the
output, and the output of `N + 1` bytes is filled exactly. -/
theorem c4_backreference_run (N : Nat) (h2 : 2 ≤ N) (hN : N + 1 ≤ 0x10000) :
    unpack_1 [0x01, 0xAB, 0x7F, (N - 2) % 256, (N - 2) / 256, 0x01, 0x00]
      ⟨N + 1, 1, 8, []⟩ = .ok (List.replicate (N + 1) 0xAB) := by
  obtain ⟨M, rfl⟩ : ∃ M, N = M + 2 := ⟨N - 2, by omega⟩
  rw [show M + 2 - 2 = M from by omega]
  have hu : unpack_1 [0x01, 0xAB, 0x7F, M % 256, M / 256, 0x01, 0x00]
      ⟨M + 2 + 1, 1, 8, []⟩ =
      unpack1Loop (M + 3 + 1) [0x01, 0xAB, 0x7F, M % 256, M / 256, 0x01, 0x00] 0
        (List.replicate 0x10000 0) 0 (List.replicate (M + 3) 0) 0 := by
    unfold unpack_1
    norm_num
  rw [hu]
  rw [unpack1Loop_step_lit (M + 3) _ [0x7F, M % 256, M / 256, 0x01, 0x00]
    0 (0x01 ||| 0xFF00) 0xAB _ _ 0 0
    (by rw [List.length_replicate]; omega) (reload1 _) bit1]
  rw [show M + 3 = (M + 2) + 1 from rfl]
  rw [unpack1Loop_step_ref (M + 2) _ _ []
    (0x01 ||| 0xFF00) ((0x01 ||| 0xFF00) >>> 1)
    (2 + (M % 256 + 256 * (M / 256))) (0x01 + 256 * 0x00) _ _
    ((0 + 1) % 0x10000) (0 + 1)
    (by rw [List.length_set, List.length_replicate]; omega)
    (reload2 _) bit2 (ctrl7F _ _ _ _ _)]
  rw [Nat.mod_add_div M 256]
  rw [show (0x01 + 256 * 0x00 : Nat) = 1 from by norm_num]
  rw [show ((0 + 1) % 0x10000 : Nat) = 1 from by norm_num]
  rw [show wsub 1 1 = 0 from by norm_num [wsub]]
  obtain ⟨win', wp', out', hcopy, hlen', hvals⟩ :=
    unpack1Copy_run (M + 2) (by omega) (2 + M)
      ((List.replicate 0x10000 0).set 0 0xAB) 1 0
      ((List.replicate (M + 2 + 1) 0).set 0 0xAB) 1
      (by rw [List.length_set, List.length_replicate])
      (by rw [List.length_set, List.length_replicate])
      (by omega) (by omega) (by norm_num) (by norm_num)
      (by
        intro j hj
        have hj0 : j = 0 := by omega
        subst hj0
        exact getD_set_self _ _ _
          (by rw [List.length_replicate]; omega))
      (by
        intro j hj
        have hj0 : j = 0 := by omega
        subst hj0
        exact getD_set_self _ _ _
          (by rw [List.length_replicate]; omega))
  rw [hcopy]
  dsimp only
  rw [show min (1 + (2 + M)) (M + 2 + 1) = M + 3 from by omega]
  rw [show M + 2 = (M + 1) + 1 from rfl]
  conv_lhs => rw [unpack1Loop]
  rw [if_neg (by rw [hlen']; omega)]
  have hrepl : out' = List.replicate (M + 2 + 1) 0xAB := by
    have hmem : ∀ b ∈ out', b = 0xAB := by
      intro b hb
      obtain ⟨i, hi, rfl⟩ := List.mem_iff_getElem.mp hb
      have hv := hvals i (by
        rw [show min (1 + (2 + M)) (M + 2 + 1) = M + 3 from by omega]
        rw [hlen'] at hi
        omega)
      rw [List.getD_eq_getElem?_getD, List.getElem?_eq_getElem hi] at hv
      exact hv
    have hl : M + 2 + 1 = out'.length := by rw [hlen']
    rw [hl]
    exact List.eq_replicate_length.mpr hmem
  rw [hrepl]

/-- C4 witness: the run theorem evaluated at `N = 5`. -/
theorem c4_witness :
    2 ≤ 5 ∧ 5 + 1 ≤ 0x10000 ∧
    unpack_1 [0x01, 0xAB, 0x7F, (5 - 2) % 256, (5 - 2) / 256, 0x01, 0x00]
      ⟨5 + 1, 1, 8, []⟩ = .ok (List.replicate (5 + 1) 0xAB) :=
  ⟨by decide, by decide, c4_backreference_run 5 (by decide) (by decide)⟩


end CrxSpec
